import Mathlib

/-! ## Dumb-interface input functions (`src/dinput.c`)

A shallow embedding of the input half of the dumb Frotz front end, and the
properties of it that were checked.

Conventions of the embedding.

* A C string is the list of its bytes before the terminating NUL (`CStr`);
  a byte is a natural number below 256, i.e. the bit pattern of the `char`.
* Output to `stdout` and `stderr` (prompts, diagnostics, the help text, screen
  dumps) is not part of the state and is left out.
* Constants, types and functions that `dfrotz.h` or the C library provide, and
  that are not in `dinput.c`, are fields of `Platform`.
* Behaviour that C leaves undefined (reading past a terminator, a string
  function applied to `NULL`, an unterminated or overflowing buffer) is the
  result `Run.undefined`; the end of the input stream, on which `xgetchar`
  leaves the process, is `Run.eof`.
* Values of type `int` and `time_t` are integers. The values that `atoi` and
  the conversion from `float` store in an `int` are in the range of `int`
  (32 bits), as on x86-64 with the GNU C library; sums and differences of
  `int` values are not reduced to that range.
* Values of type `float` and `double` are exact fractions, rounded as IEEE 754
  prescribes wherever the code rounds.
-/

namespace Dinput

/-- Bytes of a C string, the terminating NUL excluded. -/
abbrev CStr := List Nat

/-- The string a `char *` denotes when the buffer holds `buf`: everything before the first NUL. -/
def cstr (buf : List Nat) : CStr := buf.takeWhile (fun b => b != 0)

/-- The internal key codes (`ZC_...` of the interpreter's header) used by `dinput.c`. -/
structure ZCodes where
  ZC_TIME_OUT : Nat
  ZC_BACKSPACE : Nat
  ZC_ESCAPE : Nat
  ZC_RETURN : Nat
  ZC_ARROW_UP : Nat
  ZC_ARROW_DOWN : Nat
  ZC_ARROW_LEFT : Nat
  ZC_ARROW_RIGHT : Nat
  ZC_HKEY_RECORD : Nat
  ZC_HKEY_PLAYBACK : Nat
  ZC_HKEY_SEED : Nat
  ZC_HKEY_UNDO : Nat
  ZC_HKEY_RESTART : Nat
  ZC_HKEY_QUIT : Nat
  ZC_HKEY_DEBUG : Nat
  ZC_HKEY_HELP : Nat
  ZC_FKEY_F1 : Nat
  ZC_FKEY_F2 : Nat
  ZC_FKEY_F3 : Nat
  ZC_FKEY_F4 : Nat
  ZC_FKEY_F5 : Nat
  ZC_FKEY_F6 : Nat
  ZC_FKEY_F7 : Nat
  ZC_FKEY_F8 : Nat
  ZC_FKEY_F9 : Nat
  ZC_FKEY_F10 : Nat

/-- Conversion of an integer constant to the `char` that `*dest++ = ...` stores. -/
def to_char (v : Nat) : Nat := v % 256

/-- The inner `switch (*src++)` of `translate_special_chars` (lines 146-181): the byte written
for the character after a backslash, `none` for the `default:` case, which writes nothing. -/
def escape_code (zc : ZCodes) (c : Nat) : Option Nat :=
  if c = 10 then some (to_char zc.ZC_RETURN)            -- '\n'
  else if c = 92 then some 92                            -- '\\'
  else if c = 63 then some (to_char zc.ZC_BACKSPACE)     -- '?'
  else if c = 91 then some (to_char zc.ZC_ESCAPE)        -- '['
  else if c = 95 then some (to_char zc.ZC_RETURN)        -- '_'
  else if c = 94 then some (to_char zc.ZC_ARROW_UP)      -- '^'
  else if c = 46 then some (to_char zc.ZC_ARROW_DOWN)    -- '.'
  else if c = 60 then some (to_char zc.ZC_ARROW_LEFT)    -- '<'
  else if c = 62 then some (to_char zc.ZC_ARROW_RIGHT)   -- '>'
  else if c = 82 then some (to_char zc.ZC_HKEY_RECORD)   -- 'R'
  else if c = 80 then some (to_char zc.ZC_HKEY_PLAYBACK) -- 'P'
  else if c = 83 then some (to_char zc.ZC_HKEY_SEED)     -- 'S'
  else if c = 85 then some (to_char zc.ZC_HKEY_UNDO)     -- 'U'
  else if c = 78 then some (to_char zc.ZC_HKEY_RESTART)  -- 'N'
  else if c = 88 then some (to_char zc.ZC_HKEY_QUIT)     -- 'X'
  else if c = 68 then some (to_char zc.ZC_HKEY_DEBUG)    -- 'D'
  else if c = 72 then some (to_char zc.ZC_HKEY_HELP)     -- 'H'
  else if c = 49 then some (to_char zc.ZC_FKEY_F1)       -- '1'
  else if c = 50 then some (to_char zc.ZC_FKEY_F2)
  else if c = 51 then some (to_char zc.ZC_FKEY_F3)
  else if c = 52 then some (to_char zc.ZC_FKEY_F4)
  else if c = 53 then some (to_char zc.ZC_FKEY_F5)
  else if c = 54 then some (to_char zc.ZC_FKEY_F6)
  else if c = 55 then some (to_char zc.ZC_FKEY_F7)
  else if c = 56 then some (to_char zc.ZC_FKEY_F8)
  else if c = 57 then some (to_char zc.ZC_FKEY_F9)       -- '9'
  else if c = 48 then some (to_char zc.ZC_FKEY_F10)      -- '0'
  else none

/-- Translation of the escapes of `s` (`translate_special_chars`, lines 138-184). The argument
is the C string at `s`; the result is the sequence of bytes written through `dest` before the
final NUL. The write cursor never passes the read cursor, so writing in place does not change
what is read. The result is `none` when a backslash is the last character of the string: the
inner `switch` then reads the terminator, `src` steps past it and the outer loop goes on reading
after the end of the string. -/
def translate_special_chars (zc : ZCodes) : CStr → Option (List Nat)
  | [] => some []
  | c :: rest =>
    if c = 10 then
      (translate_special_chars zc rest).map (fun out => to_char zc.ZC_RETURN :: out)
    else if c = 92 then
      match rest with
      | [] => none
      | e :: rest2 =>
        (translate_special_chars zc rest2).map (fun out => (escape_code zc e).toList ++ out)
    else
      (translate_special_chars zc rest).map (fun out => c :: out)

/-- The function `check_timeout` (lines 194-201): from the requested timeout and the value of
`time_ahead`, the new value of `time_ahead` and the result. -/
def check_timeout (timeout time_ahead : Int) : Int × Bool :=
  let time_ahead2 :=
    if timeout = 0 ∨ timeout > time_ahead then 0 else time_ahead - timeout
  (time_ahead2, time_ahead2 != 0)

/-! ## The character decoder -/

/-- The byte `in[i]` of a buffer that holds the C string `inp`: its terminating NUL stands at
index `inp.length`. Bytes after the terminator read as 0 too; the decoder does not read them
when it starts on a byte of the string. -/
def byte_at (inp : CStr) (i : Nat) : Nat := inp.getD i 0

/-- The loop `while ((in[++idx] & 0xc0) == 0x80) ;` of line 385. The list holds the bytes from
index `idx + 1` on, where `idx` is the index before the increment; the result is the value of
`idx` when the loop stops. The terminating NUL is not a continuation byte and stops it. -/
def skip_continuation : List Nat → Nat → Nat
  | [], idx => idx + 1
  | b :: rest, idx => if b &&& 0xc0 = 0x80 then skip_continuation rest (idx + 1) else idx + 1

/-- Assignment to a `zchar`. Where `utf8_to_zchar` is compiled (`USE_UTF8`) the type holds 16
bits: the function's comment speaks of UCS-2 and of what is representable in 16 bits. -/
def to_zchar (v : Nat) : Nat := v % 65536

/-- The function `utf8_to_zchar` (lines 365-395): the code stored in `*out` and the index
returned, for the C string `inp` and the offset `idx`. -/
def utf8_to_zchar (inp : CStr) (idx : Nat) : Nat × Nat :=
  if byte_at inp idx &&& 0x80 = 0 then
    (to_zchar (byte_at inp idx), idx + 1)
  else if byte_at inp idx &&& 0xe0 = 0xc0 then
    let ch := to_zchar (byte_at inp idx &&& 0x1f)
    if byte_at inp (idx + 1) &&& 0xc0 ≠ 0x80 then
      (63, idx + 1)
    else
      (to_zchar ((ch <<< 6) ||| (byte_at inp (idx + 1) &&& 0x3f)), idx + 2)
  else if byte_at inp idx &&& 0xf0 = 0xe0 then
    let ch := to_zchar (byte_at inp idx &&& 0xf)
    if byte_at inp (idx + 1) &&& 0xc0 ≠ 0x80 then
      (63, idx + 1)
    else
      let ch1 := to_zchar ((ch <<< 6) ||| (byte_at inp (idx + 1) &&& 0x3f))
      if byte_at inp (idx + 2) &&& 0xc0 ≠ 0x80 then
        (63, idx + 2)
      else
        (to_zchar ((ch1 <<< 6) ||| (byte_at inp (idx + 2) &&& 0x3f)), idx + 3)
  else
    (63, skip_continuation (inp.drop (idx + 1)) idx)

/-! ## What the C library provides -/

/-- The predicate `islower` in the "C" locale. -/
def islower (c : Nat) : Bool := decide (97 ≤ c ∧ c ≤ 122)

/-- The predicate `isspace` in the "C" locale. -/
def isspace (c : Nat) : Bool := decide (c = 32 ∨ (9 ≤ c ∧ c ≤ 13))

/-- The predicate `isdigit`. -/
def isdigit (c : Nat) : Bool := decide (48 ≤ c ∧ c ≤ 57)

/-- The digits loop of `atoi`: the value of the leading decimal digits, after `acc`. -/
def atoi_digits : CStr → Nat → Nat
  | [], acc => acc
  | c :: cs, acc => if isdigit c then atoi_digits cs (acc * 10 + (c - 48)) else acc

/-- The number that the text `s` denotes for `strtol` in base 10: white space, an optional sign,
then decimal digits; 0 when there is no digit. -/
def number_value (s : CStr) : Int :=
  match s.dropWhile isspace with
  | 45 :: cs => - (atoi_digits cs 0 : Int)
  | 43 :: cs => (atoi_digits cs 0 : Int)
  | cs => (atoi_digits cs 0 : Int)

/-- The call `strtol(s, NULL, 10)` with a `long` of 64 bits: the number the text denotes, and
`LONG_MAX` or `LONG_MIN` in its place when it lies beyond them. -/
def strtol (s : CStr) : Int :=
  max (-9223372036854775808) (min (number_value s) 9223372036854775807)

/-- Conversion of an integer to `int` (32 bits, two's complement): the value in the range of
`int` that differs from `v` by a multiple of 2^32. -/
def to_int (v : Int) : Int := (v + 2147483648) % 4294967296 - 2147483648

/-- The function `atoi`. For a number within the range of `int` the result is that number. C
does not say what the result is for another number; here it is what the GNU C library gives on
x86-64, where `atoi(s)` is `(int) strtol(s, NULL, 10)`: the text `4294967296` reads as 0. -/
def atoi (s : CStr) : Int := to_int (strtol s)

/-- The call `strrchr(s, c)` for a non-NUL `c`: the part of `s` from the last `c` on, `none`
(the null pointer) when `c` does not occur. -/
def strrchr (s : CStr) (c : Nat) : Option CStr :=
  match s with
  | [] => none
  | x :: xs =>
    match strrchr xs c with
    | some r => some r
    | none => if x = c then some (x :: xs) else none

/-- The test `strncmp(a, b, n) == 0` on C strings. -/
def strncmp_eq (a b : CStr) (n : Nat) : Bool := a.take n == b.take n

/-- The call `strndup(s, n)`. -/
def strndup (s : CStr) (n : Nat) : CStr := s.take n

/-- Subtraction of `size_t` values of `bits` bits. -/
def size_sub (bits a b : Nat) : Nat := (a % 2 ^ bits + 2 ^ bits - b % 2 ^ bits) % 2 ^ bits

/-- The call `strncat(dest, src, n)`, as the new content of `dest`. -/
def strncat (dest src : CStr) (n : Nat) : CStr := dest ++ src.take n

/-! ## Platform and session state -/

/-- A value of type `float` or `double`, such as the variable `speed` (line 80). A finite value
is the fraction `num / den` with `den` positive; with `den = 0` the value is an infinity of the
sign of `num`, or a NaN when `num = 0`. The functions below return fractions in lowest terms. -/
structure Speed where
  num : Int
  den : Nat
deriving DecidableEq, Repr

/-- Number of binary digits of `n`, for `fuel` at least that number: 0 for 0, and `k + 1` for
`2 ^ k ≤ n < 2 ^ (k + 1)`. -/
def bit_count : Nat → Nat → Nat
  | 0, _ => 0
  | fuel + 1, n => if n = 0 then 0 else bit_count fuel (n / 2) + 1

/-- Whether `2 ^ k ≤ n / d`, for a positive `d`. -/
def ratio_reaches (n d : Nat) (k : Int) : Bool :=
  if 0 ≤ k then decide (d * 2 ^ k.toNat ≤ n) else decide (d ≤ n * 2 ^ (-k).toNat)

/-- The binary exponent of the fraction `n / d`, for positive `n` and `d`: the `e` with
`2 ^ e ≤ n / d < 2 ^ (e + 1)`. -/
def binary_exponent (n d : Nat) : Int :=
  let k : Int := (bit_count n n : Int) - (bit_count d d : Int)
  if ratio_reaches n d k then k else k - 1

/-- Rounding to a binary floating-point format (IEEE 754, round to nearest, ties to even): the
format has `prec` significant bits, its smallest positive value is `2 ^ emin`, and a result of
`2 ^ emax` or more is replaced by an infinity. -/
def round_binary (prec : Nat) (emin : Int) (emax : Nat) (x : Speed) : Speed :=
  if x.den = 0 then { num := x.num.sign, den := 0 }
  else if x.num = 0 then { num := 0, den := 1 }
  else
    let n := x.num.natAbs
    -- the value of the last bit of the result is 2 ^ q
    let q : Int := max (binary_exponent n x.den - ((prec : Int) - 1)) emin
    -- n / den = (top / bottom) * 2 ^ q
    let top := n * 2 ^ (-q).toNat
    let bottom := x.den * 2 ^ q.toNat
    let m0 := top / bottom
    let r := top % bottom
    let m := if bottom < 2 * r ∨ (2 * r = bottom ∧ m0 % 2 = 1) then m0 + 1 else m0
    -- the result is m * 2 ^ q = vn / vd
    let vn := m * 2 ^ q.toNat
    let vd := 2 ^ (-q).toNat
    if (emax : Int) < (bit_count m m : Int) + q then { num := x.num.sign, den := 0 }
    else { num := x.num.sign * ((vn / Nat.gcd vn vd : Nat) : Int), den := vd / Nat.gcd vn vd }

/-- Conversion to `float`, the IEEE 754 single-precision format. -/
def to_float (x : Speed) : Speed := round_binary 24 (-149) 128 x

/-- Conversion to `double`, the IEEE 754 double-precision format. -/
def to_double (x : Speed) : Speed := round_binary 53 (-1074) 1024 x

/-- The product of two `float` values, computed in single precision. A product with a NaN, and
the product of zero and an infinity, is a NaN. -/
def float_mul (a b : Speed) : Speed :=
  if a.den = 0 ∨ b.den = 0 then
    if a.num = 0 ∨ b.num = 0 then { num := 0, den := 0 }
    else { num := a.num.sign * b.num.sign, den := 0 }
  else to_float { num := a.num * b.num, den := a.den * b.den }

/-- Whether the `float` value `x`, cut to its integral part, is in the range of `int`. -/
def float_fits_int (x : Speed) : Bool :=
  decide (x.den ≠ 0 ∧ -2147483648 ≤ Int.tdiv x.num x.den ∧ Int.tdiv x.num x.den ≤ 2147483647)

/-- Conversion of a `float` value to `int`: the integral part of the value, when `int` can hold
it. C does not say what the result is otherwise; here it is what the conversion instruction of
x86-64 gives for every such value, the smallest `int`. -/
def float_to_int (x : Speed) : Int :=
  if float_fits_int x then Int.tdiv x.num x.den else -2147483648

/-- What `dfrotz.h`, the C library and the other modules provide to `dinput.c`. -/
structure Platform where
  /-- Size of the line buffers; at least 2. -/
  INPUT_BUFFER_SIZE : Nat
  MAX_FILE_NAME : Nat
  /-- The constant `FILENAME_MAX` of `stdio.h`. -/
  FILENAME_MAX : Nat
  PATH_SEPARATOR : Nat
  EXT_AUX : CStr
  /-- Width of `size_t`. -/
  size_bits : Nat
  zc : ZCodes
  /-- The field `z_header.screen_rows`. -/
  screen_rows : Nat
  /-- The function `atof`, as used for the argument of the command `sf`; its result is a
  `double`. -/
  atof : CStr → Speed
  /-- The function `basename`. -/
  basename : CStr → CStr
  /-- The predicate `is_terminator` of the interpreter core. -/
  is_terminator : Nat → Bool
  /-- Whether `fopen(name, "rb")` succeeds. -/
  file_exists : CStr → Bool

/-- The enumeration `input_type` (lines 82-86). -/
inductive input_type where
  | INPUT_CHAR
  | INPUT_LINE
  | INPUT_LINE_CONTINUED
deriving DecidableEq, Repr

/-- The variables of `dinput.c` that `dumb_read_line` shares with later calls: `time_ahead`
(line 188), `speed` (line 80) and `do_more_prompts`. -/
structure Session where
  time_ahead : Int
  speed : Speed
  do_more_prompts : Bool
deriving DecidableEq, Repr

/-- One line of the input stream: the bytes typed before the newline (none of them a newline),
and the value `time(0)` has when the line has been read. -/
structure Line where
  raw : List Nat
  now : Int
deriving DecidableEq, Repr

/-- Result of a piece of code that reads the input stream. -/
inductive Run (α : Type) where
  /-- The code returns. -/
  | done (a : α)
  /-- The code does something C leaves undefined. -/
  | undefined
  /-- The input stream ends: `xgetchar` leaves the process through `os_quit`. -/
  | eof
deriving DecidableEq, Repr

/-- The function `dumb_getline` (lines 119-134) on one line of the stream: the bytes it stores
from the start of the buffer on, which are the line with its newline, cut to
`INPUT_BUFFER_SIZE - 2` bytes before the newline when it is longer. A NUL follows the last of
them. The line may hold NUL bytes itself; the C string in the buffer is then `cstr` of the result,
and the other bytes stand behind that string. On a line that is cut, line 133 also prints a
message, with an argument that points before the buffer; like all output it is left out. -/
def dumb_getline (P : Platform) (raw : List Nat) : List Nat :=
  raw.take (P.INPUT_BUFFER_SIZE - 2) ++ [10]

/-- The loop of `translate_special_chars` (lines 138-184) on a buffer in which `dumb_getline` has
stored the bytes `stored`, followed by a NUL: the bytes written through `dest`. The loop ends at
a NUL, in `stored` or after it. A NUL that the inner `switch` reads after a backslash is an
unknown escape character: nothing is written, `src` steps over it and the loop goes on with the
next stored byte. The result is `none` when that NUL is the one after the last stored byte, so
that the loop goes on behind what `dumb_getline` stored. On a list without NUL the function is
`translate_special_chars`. -/
def translate_stored (zc : ZCodes) : List Nat → Option (List Nat)
  | [] => some []
  | c :: rest =>
    if c = 0 then some []
    else if c = 10 then
      (translate_stored zc rest).map (fun out => to_char zc.ZC_RETURN :: out)
    else if c = 92 then
      match rest with
      | [] => none
      | e :: rest2 =>
        (translate_stored zc rest2).map (fun out => (escape_code zc e).toList ++ out)
    else
      (translate_stored zc rest).map (fun out => c :: out)

/-- The `float` value of `(now - start_time) * 10 * speed` (lines 269 and 294): the difference of
the two times and its product with 10 are integers, the product with `speed` is computed in
single precision. -/
def scaled_time (now start_time : Int) (speed : Speed) : Speed :=
  float_mul (to_float { num := (now - start_time) * 10, den := 1 }) speed

/-- The value that `int elapsed = (now - start_time) * 10 * speed` stores (lines 269 and 294). -/
def elapsed_time (now start_time : Int) (speed : Speed) : Int :=
  float_to_int (scaled_time now start_time speed)

/-- The function `toggle` (lines 205-208). -/
def toggle (var : Bool) (val : Nat) : Bool := val = 49 || (val != 48 && !var)

/-- Number of lines of the text `runtime_usage` (lines 35-77), each ended by a newline. -/
def runtime_usage_lines : Nat := 43

/-! ## The line reader `dumb_read_line` -/

/-- State of the loop of `dumb_read_line`: the shared variables, the locals `timeout`,
`start_time` and `type`, the caller's buffer `continued_line_chars` (`none` for a null
pointer), and, while the paginated help waits for a line (lines 326-330), the number of lines
of the help text not yet shown. -/
structure Loop where
  g : Session
  timeout : Int
  start_time : Int
  type : input_type
  continued_line_chars : Option (List Nat)
  help_left : Option Nat
deriving DecidableEq, Repr

/-- What `dumb_read_line` leaves behind when it returns: its result, the C string in `s`, the
shared variables and the caller's continuation buffer. -/
structure LineResult where
  timed_out : Bool
  s : CStr
  g : Session
  continued_line_chars : Option (List Nat)
deriving DecidableEq, Repr

/-- Effect of one line of input on the loop of `dumb_read_line`. -/
inductive Step where
  /-- The function returns. -/
  | ret (r : LineResult)
  /-- The loop goes round again. -/
  | next (st : Loop)
  /-- The escape translator reads behind the line that was stored. -/
  | undefined
deriving DecidableEq, Repr

/-- The test of line 265, negated: the line in `s` is a command line. -/
def is_command_line (s : CStr) : Bool :=
  !(byte_at s 0 != 92 || (byte_at s 1 != 0 && !islower (byte_at s 1)))

/-- One page of the paginated help (lines 319-325): from the number of lines not yet shown, the
number left after `screen_rows - 2` more of them, `none` when the text is finished and the help
loop is left. -/
def help_page (P : Platform) (left : Nat) : Option Nat :=
  let left2 := left - ((P.screen_rows : Int) - 2).toNat
  if left2 = 0 then none else some left2

/-- The function `dumb_handle_setting` (lines 212-229) on the shared variables. Its result,
and the settings of the output module it passes on, only change what is printed. -/
def dumb_handle_setting (P : Platform) (g : Session) (setting : CStr) : Session :=
  if strncmp_eq setting [115, 102] 2 then
    { g with speed := to_float (P.atof (setting.drop 2)) }
  else if strncmp_eq setting [109, 112] 2 then
    { g with do_more_prompts := toggle g.do_more_prompts (byte_at setting 2) }
  else g

/-- The command part of the loop body (lines 277-338) for the command line `s` read at time
`now`. -/
def dumb_read_line_command (P : Platform) (st : Loop) (s : CStr) (now : Int) : Step :=
  -- command = s + 1; command[strlen(command) - 1] = '\0';
  let command := (s.drop 1).dropLast
  if command = [116] then                                   -- "t"
    if st.timeout ≠ 0 then
      .ret { timed_out := true, s := [], g := { st.g with time_ahead := 0 },
             continued_line_chars := st.continued_line_chars }
    else .next st
  else if byte_at command 0 = 119 then                      -- 'w'
    if st.timeout ≠ 0 then
      let elapsed0 := atoi (command.drop 1)
      let elapsed := if elapsed0 = 0 then elapsed_time now st.start_time st.g.speed else elapsed0
      if elapsed ≥ st.timeout then
        .ret { timed_out := true, s := [], g := { st.g with time_ahead := elapsed - st.timeout },
               continued_line_chars := st.continued_line_chars }
      else .next { st with timeout := st.timeout - elapsed, start_time := now }
    else .next st
  else if command = [100] then                              -- "d"
    if st.type ≠ input_type.INPUT_LINE_CONTINUED then .next st
    else .next { st with continued_line_chars := st.continued_line_chars.map (fun _ => []),
                         type := input_type.INPUT_LINE }
  else if command = [104, 101, 108, 112] then               -- "help"
    if !st.g.do_more_prompts then .next st
    else .next { st with help_left := help_page P runtime_usage_lines }
  else if command = [115] then .next st                     -- "s"
  else .next { st with g := dumb_handle_setting P st.g command }

/-- One round of input in `dumb_read_line`: the line `ev` is read by `dumb_getline`, either at
the top of the loop (line 263) or by the paginated help (line 328). -/
def dumb_read_line_step (P : Platform) (st : Loop) (ev : Line) : Step :=
  let s := cstr (dumb_getline P ev.raw)
  match st.help_left with
  | some left =>
    if s = [113, 10] then .next { st with help_left := none }     -- "q\n"
    else .next { st with help_left := help_page P left }
  | none =>
    if !is_command_line s then
      match translate_stored P.zc (dumb_getline P ev.raw) with
      | none => .undefined
      | some out =>
        if st.timeout ≠ 0 ∧ elapsed_time ev.now st.start_time st.g.speed > st.timeout then
          .ret { timed_out := true, s := cstr out,
                 g := { st.g with
                        time_ahead := elapsed_time ev.now st.start_time st.g.speed - st.timeout },
                 continued_line_chars := st.continued_line_chars }
        else
          .ret { timed_out := false, s := cstr out, g := st.g,
                 continued_line_chars := st.continued_line_chars }
    else dumb_read_line_command P st s ev.now

/-- The loop `for (;;)` of `dumb_read_line` (lines 253-339) over the lines of the input stream;
the result comes with the lines not read. -/
def dumb_read_line_loop (P : Platform) : Loop → List Line → Run (LineResult × List Line)
  | _, [] => .eof
  | st, ev :: rest =>
    match dumb_read_line_step P st ev with
    | .ret r => .done (r, rest)
    | .next st2 => dumb_read_line_loop P st2 rest
    | .undefined => .undefined

/-- The function `dumb_read_line` (lines 236-340). `s` is the C string in the buffer at the
call, `now` the value of `time(0)` at line 248, `input` the lines still to come on the input
stream. The prompt and `show_cursor` only matter to what is printed. The call `openSockClient(s)`
of line 264, which is not part of `dinput.c`, is taken to leave `s` as it is. Without a timeout
the local `start_time` is never set and never read; it is 0 here. -/
def dumb_read_line (P : Platform) (g : Session) (s : CStr) (timeout : Int) (type : input_type)
    (continued_line_chars : Option (List Nat)) (now : Int) (input : List Line) :
    Run (LineResult × List Line) :=
  if timeout ≠ 0 ∧ g.time_ahead ≥ timeout then
    .done ({ timed_out := true, s := s, g := { g with time_ahead := g.time_ahead - timeout },
             continued_line_chars := continued_line_chars }, input)
  else
    dumb_read_line_loop P
      { g := { g with time_ahead := 0 },
        timeout := if timeout ≠ 0 then timeout - g.time_ahead else timeout,
        start_time := if timeout ≠ 0 then now else 0,
        type := type, continued_line_chars := continued_line_chars, help_left := none }
      input

/-- What `dumb_read_misc_line` leaves behind: the C string in `s`, the shared variables and the
lines not read. -/
structure MiscLine where
  s : CStr
  g : Session
  rest : List Line
deriving DecidableEq, Repr

/-- The function `dumb_read_misc_line` (lines 345-350): the line read, without its last
character. Removing the last character of an empty string writes before the buffer. -/
def dumb_read_misc_line (P : Platform) (g : Session) (input : List Line) : Run MiscLine :=
  match dumb_read_line P g [] 0 input_type.INPUT_CHAR none 0 input with
  | .done r =>
    if r.1.s = [] then .undefined else .done { s := r.1.s.dropLast, g := r.1.g, rest := r.2 }
  | .undefined => .undefined
  | .eof => .eof

/-- Whether MORE prompts are off whenever the loop of `dumb_read_line` reads a command `help`
among the command lines `lines`, when they are `prompts` before the first of these lines. Of
the commands only those that begin with `mp` change them, through `toggle` (lines 223-224). -/
def prompts_off_at_help (P : Platform) : Bool → List Line → Bool
  | _, [] => true
  | prompts, ev :: rest =>
    let command := ((cstr (dumb_getline P ev.raw)).drop 1).dropLast
    (command != [104, 101, 108, 112] || !prompts) &&
      prompts_off_at_help P
        (if command.take 2 = [109, 112] then toggle prompts (byte_at command 2) else prompts)
        rest

/-! ## The file name resolver `os_read_file_name` -/

/-- The values of the argument `flag` of `os_read_file_name` (lines 518-525). -/
inductive file_flag where
  | FILE_SAVE
  | FILE_RESTORE
  | FILE_SCRIPT
  | FILE_RECORD
  | FILE_PLAYBACK
  | FILE_SAVE_AUX
  | FILE_LOAD_AUX
  | FILE_NO_PROMPT
deriving DecidableEq, Repr

/-- The fields of `f_setup` that `os_read_file_name` reads; `restricted_path` is `none` for
a null pointer. -/
structure Setup where
  restore_mode : Bool
  restricted_path : Option CStr
deriving DecidableEq, Repr

/-- What `os_read_file_name` leaves behind: the string returned (`none` for `NULL`), the shared
variables and the lines not read. -/
structure FileResult where
  name : Option CStr
  g : Session
  rest : List Line
deriving DecidableEq, Repr

/-- The loop of lines 590-595, started at `i`: the value of `i` after it. -/
def scan_separator (sep : Nat) (file_name : CStr) : Nat → Nat
  | 0 => 0
  | i + 1 => if byte_at file_name (i + 1) = sep then i + 2 else scan_separator sep file_name i

/-- Lines 589-604: the content of `file_name` after the rewrite below the restricted path
`root`, `none` where a string is left without terminator (`strncpy`), a byte before the buffer
is read (empty `root`) or the buffer of `FILENAME_MAX + 1` bytes overflows. -/
def restrict_file_name (P : Platform) (root file_name : CStr) : Option CStr :=
  let i := scan_separator P.PATH_SEPARATOR file_name file_name.length
  let tempname := file_name.drop i
  if P.FILENAME_MAX ≤ root.length ∨ root = [] then none
  else
    let name1 :=
      if byte_at root (root.length - 1) ≠ P.PATH_SEPARATOR then
        strncat root [P.PATH_SEPARATOR] (size_sub P.size_bits (size_sub P.size_bits P.FILENAME_MAX root.length) 2)
      else root
    let name2 :=
      strncat name1 tempname (size_sub P.size_bits (size_sub P.size_bits name1.length tempname.length) 1)
    if name2.length ≤ P.FILENAME_MAX then some name2 else none

/-- Lines 586-614 of `os_read_file_name`: from the resolved name `buf` to the result. -/
def finish_file_name (P : Platform) (f : Setup) (flag : file_flag) (buf : CStr) (g : Session)
    (input : List Line) : Run FileResult :=
  -- strncpy(file_name, buf, FILENAME_MAX) ends the copy with a NUL only for a shorter buf
  if P.FILENAME_MAX ≤ buf.length then .undefined
  else
    let renamed : Option CStr :=
      match f.restricted_path with
      | none => some buf
      | some root => restrict_file_name P root buf
    match renamed with
    | none => .undefined
    | some file_name =>
      if (flag = file_flag.FILE_SAVE ∨ flag = file_flag.FILE_SAVE_AUX ∨ flag = file_flag.FILE_RECORD)
          ∧ P.file_exists file_name = true then
        match dumb_read_misc_line P g input with
        | .done answer =>
          -- tolower(fullpath[0]) != 'y'
          if byte_at answer.s 0 = 121 ∨ byte_at answer.s 0 = 89 then
            .done { name := some file_name, g := answer.g, rest := answer.rest }
          else .done { name := none, g := answer.g, rest := answer.rest }
        | .undefined => .undefined
        | .eof => .eof
      else .done { name := some file_name, g := g, rest := input }

/-- The function `os_read_file_name` (lines 534-615). The array `prompt` has
`INPUT_BUFFER_SIZE` bytes; a name too long for it makes `sprintf` write past its end. -/
def os_read_file_name (P : Platform) (f : Setup) (g : Session) (default_name : CStr)
    (flag : file_flag) (input : List Line) : Run FileResult :=
  if f.restore_mode then .done { name := some default_name, g := g, rest := input }
  else if flag = file_flag.FILE_NO_PROMPT then
    match strrchr default_name 46 with
    | none => .undefined                                  -- strncmp(NULL, EXT_AUX, 4)
    | some ext =>
      if !strncmp_eq ext P.EXT_AUX 4 then .done { name := none, g := g, rest := input }
      else
        let buf :=
          match f.restricted_path with
          | none => strndup default_name P.MAX_FILE_NAME
          | some _ => P.basename default_name
        finish_file_name P f flag buf g input
  else
    let shown :=
      match f.restricted_path with
      | none => default_name
      | some _ => P.basename default_name
    -- sprintf(prompt, "Please enter a filename [%s]: ", shown): 28 characters, the name, a NUL
    if P.INPUT_BUFFER_SIZE < shown.length + 29 then .undefined
    else
      match dumb_read_misc_line P g input with
      | .done fullpath =>
        let buf :=
          if fullpath.s.length = 0 then strndup default_name P.MAX_FILE_NAME
          else strndup fullpath.s P.MAX_FILE_NAME
        if buf.length > P.MAX_FILE_NAME then
          .done { name := none, g := fullpath.g, rest := fullpath.rest }
        else finish_file_name P f flag buf fullpath.g fullpath.rest
      | .undefined => .undefined
      | .eof => .eof

/-! ## The read-ahead buffers: `os_read_key` and `os_read_line` -/

/-- How `dinput.c` is compiled: with or without `USE_UTF8`, and whether `char` is a signed
type. The type `zchar` has 16 bits with `USE_UTF8` and is `unsigned char` without. -/
structure Build where
  use_utf8 : Bool
  char_signed : Bool
deriving DecidableEq, Repr

/-- Number of bits of a `zchar`. -/
def zchar_bits (B : Build) : Nat := if B.use_utf8 then 16 else 8

/-- Conversion of the `char` with bit pattern `b` to `zchar`, directly or through `int`: a
signed `char` of 0x80 or more is negative and keeps its sign on the way. -/
def char_to_zchar (B : Build) (b : Nat) : Nat :=
  if B.char_signed ∧ 128 ≤ b then (b + 2 ^ zchar_bits B - 256) % 2 ^ zchar_bits B
  else b % 2 ^ zchar_bits B

/-- The state that `dinput.c` keeps between calls: the variables shared with `dumb_read_line`,
the two read-ahead buffers (lines 356 and 359) and the static `timed_out_last_time` of
`os_read_line` (line 440). -/
structure Input where
  g : Session
  read_key_buffer : CStr
  read_line_buffer : CStr
  timed_out_last_time : Bool
deriving DecidableEq, Repr

/-- What `os_read_key` leaves behind: the key returned, the state and the lines not read. -/
structure KeyRead where
  c : Nat
  m : Input
  rest : List Line
deriving DecidableEq, Repr

/-- Lines 422-432 of `os_read_key`: one key is taken from the front of `read_key_buffer`. With
`USE_UTF8` the decoder gives the key and the number of bytes to drop, without it the key is
the first byte. On an empty buffer `memmove` moves nothing. -/
def take_key (B : Build) (buffer : CStr) : Nat × CStr :=
  if B.use_utf8 then ((utf8_to_zchar buffer 0).1, buffer.drop (utf8_to_zchar buffer 0).2)
  else (char_to_zchar B (byte_at buffer 0), buffer.drop 1)

/-- The function `os_read_key` (lines 399-433). `now` is the value of `time(0)` if
`dumb_read_line` is entered, `input` the lines still to come. The argument `show_cursor` only
matters to what is printed. -/
def os_read_key (P : Platform) (B : Build) (m : Input) (timeout : Int) (now : Int)
    (input : List Line) : Run KeyRead :=
  -- read_line_buffer[0] = '\0'
  if m.read_key_buffer = [] then
    match dumb_read_line P m.g m.read_key_buffer timeout input_type.INPUT_CHAR none now input with
    | .done r =>
      let buffer := if r.1.s.length > 1 then r.1.s.dropLast else r.1.s
      if r.1.timed_out then
        .done { c := P.zc.ZC_TIME_OUT % 2 ^ zchar_bits B,
                m := { g := r.1.g, read_key_buffer := buffer, read_line_buffer := [],
                       timed_out_last_time := m.timed_out_last_time },
                rest := r.2 }
      else
        .done { c := (take_key B buffer).1,
                m := { g := r.1.g, read_key_buffer := (take_key B buffer).2,
                       read_line_buffer := [], timed_out_last_time := m.timed_out_last_time },
                rest := r.2 }
    | .undefined => .undefined
    | .eof => .eof
  else
    if (check_timeout timeout m.g.time_ahead).2 then
      .done { c := P.zc.ZC_TIME_OUT % 2 ^ zchar_bits B,
              m := { g := { m.g with time_ahead := (check_timeout timeout m.g.time_ahead).1 },
                     read_key_buffer := m.read_key_buffer, read_line_buffer := [],
                     timed_out_last_time := m.timed_out_last_time },
              rest := input }
    else
      .done { c := (take_key B m.read_key_buffer).1,
              m := { g := { m.g with time_ahead := (check_timeout timeout m.g.time_ahead).1 },
                     read_key_buffer := (take_key B m.read_key_buffer).2,
                     read_line_buffer := [], timed_out_last_time := m.timed_out_last_time },
              rest := input }

/-- The scan of lines 467-473 over the bytes from index `i` on: the index of the first byte
that `is_terminator` accepts. After the bytes of the string the terminating NUL is tried;
`none` when it is not accepted either and the scan goes on behind the string. -/
def find_terminator (P : Platform) (B : Build) : List Nat → Nat → Option Nat
  | [], i => if P.is_terminator (char_to_zchar B 0) then some i else none
  | b :: rest, i =>
    if P.is_terminator (char_to_zchar B b) then some i else find_terminator P B rest (i + 1)

/-- The loop of lines 492-496 (`USE_UTF8`): the codes stored in `buf`, at most `room` of them,
decoded from `read_line_buffer` from offset `j` up to its end. -/
def decode_line (line : CStr) : Nat → Nat → List Nat
  | 0, _ => []
  | room + 1, j =>
    if byte_at line j = 0 then []
    else (utf8_to_zchar line j).1 :: decode_line line room (utf8_to_zchar line j).2

/-- Lines 482-498 of `os_read_line`: the string in `buf` after the text `line` has been
appended. With `USE_UTF8` the text is decoded as long as `buf` holds fewer than
`INPUT_BUFFER_SIZE - 2` codes; without, `strncat` appends at most
`INPUT_BUFFER_SIZE - strlen(read_line_buffer) - 1` bytes. The size of the caller's array is
not known to the function and not modelled. -/
def append_line (P : Platform) (B : Build) (buf : List Nat) (line : CStr) : List Nat :=
  if B.use_utf8 then
    cstr (buf ++ decode_line line (P.INPUT_BUFFER_SIZE - 2 - buf.length) 0)
  else
    strncat buf line
      (size_sub P.size_bits (size_sub P.size_bits P.INPUT_BUFFER_SIZE line.length) 1)

/-- What `os_read_line` leaves behind: the terminator returned, the string in `buf`, the state
and the lines not read. -/
structure LineRead where
  terminator : Nat
  buf : List Nat
  m : Input
  rest : List Line
deriving DecidableEq, Repr

/-- Lines 466-509 of `os_read_line`, for a call that has not timed out: the terminator is
looked for in `read_line_buffer`, the text before it goes to `buf`, the text after it stays in
`read_line_buffer`. The result is `.undefined` when the scan finds no terminator in the string,
and also when it stops on the terminating NUL: the bytes kept for the next call are then the
ones behind the string, which the model does not follow. -/
def split_line (P : Platform) (B : Build) (m : Input) (buf : List Nat) (rest : List Line) :
    Run LineRead :=
  match find_terminator P B m.read_line_buffer 0 with
  | none => .undefined
  | some p =>
    if m.read_line_buffer.length ≤ p then .undefined
    else
      let line := m.read_line_buffer.take p
      let kept := m.read_line_buffer.drop (p + 1)
      .done { terminator := char_to_zchar B (byte_at m.read_line_buffer p),
              buf := append_line P B buf line,
              m := { m with read_line_buffer := if kept = [13] then [] else kept,
                            timed_out_last_time := false },
              rest := rest }

/-- The function `os_read_line` (lines 436-510). `buf` is the string in the caller's buffer,
`now` the value of `time(0)` if `dumb_read_line` is entered, `input` the lines still to come.
The arguments `max` and `width` are unused. -/
def os_read_line (P : Platform) (B : Build) (m : Input) (buf : List Nat) (timeout : Int)
    (continued : Bool) (now : Int) (input : List Line) : Run LineRead :=
  -- read_key_buffer[0] = '\0'; after a timeout the line buffer is dropped unless continued
  let pending := if m.timed_out_last_time && !continued then [] else m.read_line_buffer
  if pending = [] then
    match dumb_read_line P m.g pending timeout
        (if buf ≠ [] then input_type.INPUT_LINE_CONTINUED else input_type.INPUT_LINE)
        (some buf) now input with
    | .done r =>
      if r.1.timed_out then
        .done { terminator := P.zc.ZC_TIME_OUT % 2 ^ zchar_bits B,
                buf := r.1.continued_line_chars.getD buf,
                m := { g := r.1.g, read_key_buffer := [], read_line_buffer := r.1.s,
                       timed_out_last_time := true },
                rest := r.2 }
      else
        split_line P B
          { g := r.1.g, read_key_buffer := [], read_line_buffer := r.1.s,
            timed_out_last_time := m.timed_out_last_time }
          (r.1.continued_line_chars.getD buf) r.2
    | .undefined => .undefined
    | .eof => .eof
  else
    if (check_timeout timeout m.g.time_ahead).2 then
      .done { terminator := P.zc.ZC_TIME_OUT % 2 ^ zchar_bits B, buf := buf,
              m := { g := { m.g with time_ahead := (check_timeout timeout m.g.time_ahead).1 },
                     read_key_buffer := [], read_line_buffer := pending,
                     timed_out_last_time := true },
              rest := input }
    else
      split_line P B
        { g := { m.g with time_ahead := (check_timeout timeout m.g.time_ahead).1 },
          read_key_buffer := [], read_line_buffer := pending,
          timed_out_last_time := m.timed_out_last_time }
        buf input

/-! ## A concrete platform -/

/-- The key codes of the Frotz header `frotz.h`. -/
def frotz_codes : ZCodes where
  ZC_TIME_OUT := 0x00
  ZC_BACKSPACE := 0x08
  ZC_ESCAPE := 0x1b
  ZC_RETURN := 0x0d
  ZC_ARROW_UP := 0x81
  ZC_ARROW_DOWN := 0x82
  ZC_ARROW_LEFT := 0x83
  ZC_ARROW_RIGHT := 0x84
  ZC_HKEY_RECORD := 0x0e
  ZC_HKEY_PLAYBACK := 0x0f
  ZC_HKEY_SEED := 0x10
  ZC_HKEY_UNDO := 0x11
  ZC_HKEY_RESTART := 0x12
  ZC_HKEY_QUIT := 0x13
  ZC_HKEY_DEBUG := 0x14
  ZC_HKEY_HELP := 0x15
  ZC_FKEY_F1 := 0x85
  ZC_FKEY_F2 := 0x86
  ZC_FKEY_F3 := 0x87
  ZC_FKEY_F4 := 0x88
  ZC_FKEY_F5 := 0x89
  ZC_FKEY_F6 := 0x8a
  ZC_FKEY_F7 := 0x8b
  ZC_FKEY_F8 := 0x8c
  ZC_FKEY_F9 := 0x8d
  ZC_FKEY_F10 := 0x8e

/-- The function `basename` of the GNU C library: the part after the last `/`. -/
def gnu_basename : CStr → CStr
  | [] => []
  | c :: cs => if 47 ∈ cs then gnu_basename cs else if c = 47 then cs else c :: cs

/-- The digits after the decimal point, for `atof_decimal`: numerator and denominator of the
number read so far. -/
def atof_fraction : CStr → Nat → Nat → Nat × Nat
  | [], num, den => (num, den)
  | c :: cs, num, den =>
    if isdigit c then atof_fraction cs (num * 10 + (c - 48)) (den * 10) else (num, den)

/-- The function `atof` on decimal numbers written without exponent: white space, an optional
sign, digits, and optionally a point and more digits. The result is the `double` nearest to the
number written. -/
def atof_decimal (s : CStr) : Speed :=
  let t := s.dropWhile isspace
  let negative := byte_at t 0 = 45
  let digits := if byte_at t 0 = 45 ∨ byte_at t 0 = 43 then t.drop 1 else t
  let whole := atoi_digits digits 0
  let value :=
    match digits.dropWhile isdigit with
    | 46 :: frac => atof_fraction frac whole 1
    | _ => (whole, 1)
  to_double { num := if negative then - (value.1 : Int) else (value.1 : Int), den := value.2 }

/-- A platform for examples: a Unix build of Frotz (`/` separates paths, `.aux` is the extension
of auxiliary files, 64-bit `size_t`), a screen of 24 rows, no file on disk. -/
def unix_platform : Platform where
  INPUT_BUFFER_SIZE := 200
  MAX_FILE_NAME := 80
  FILENAME_MAX := 4096
  PATH_SEPARATOR := 47
  EXT_AUX := [46, 97, 117, 120]
  size_bits := 64
  zc := frotz_codes
  screen_rows := 24
  atof := atof_decimal
  basename := gnu_basename
  is_terminator := fun c => c = 0x0d
  file_exists := fun _ => false

/-- A session state for examples: `time_ahead` and `speed` with the initial values that
`dinput.c` gives them (0 and 1), and MORE prompts switched off. -/
def initial_session : Session := { time_ahead := 0, speed := { num := 1, den := 1 }, do_more_prompts := false }

/-- The bytes of a text. -/
def bytes (t : String) : List Nat := t.toList.map Char.toNat

/-- A build for examples: `USE_UTF8` defined, `char` signed. -/
def utf8_build : Build := { use_utf8 := true, char_signed := true }

/-- A build for examples: `USE_UTF8` not defined, `char` signed. -/
def plain_build : Build := { use_utf8 := false, char_signed := true }

/-- A state for examples: `initial_session`, both buffers empty, no timeout so far. -/
def initial_input : Input :=
  { g := initial_session, read_key_buffer := [], read_line_buffer := [],
    timed_out_last_time := false }

/-- All the codes of the string `line`, decoded one after the other from its start: the loop of
lines 492-496 with room for every code. -/
def decode_all (line : CStr) : List Nat := decode_line line (line.length + 1) 0

/-- The states that calls of `os_read_key` and `os_read_line` reach from a state with both
read-ahead buffers empty, whatever the arguments and the input of each call. -/
inductive Reachable (P : Platform) (B : Build) : Input → Prop where
  | start (m : Input) (hkey : m.read_key_buffer = []) (hline : m.read_line_buffer = []) :
      Reachable P B m
  | key (m : Input) (timeout now : Int) (input : List Line) (r : KeyRead)
      (hm : Reachable P B m) (hcall : os_read_key P B m timeout now input = .done r) :
      Reachable P B r.m
  | line (m : Input) (buf : List Nat) (timeout : Int) (continued : Bool) (now : Int)
      (input : List Line) (r : LineRead) (hm : Reachable P B m)
      (hcall : os_read_line P B m buf timeout continued now input = .done r) :
      Reachable P B r.m

/-! ## The specification's wording, for comparison -/

/-- Classification of input lines in the words of the specification: a line is a command when
its first character is the command marker and its second character is either absent or not a
lowercase letter. -/
def spec_command_line (s : CStr) : Bool :=
  byte_at s 0 == 92 && (byte_at s 1 == 0 || !islower (byte_at s 1))

/-- The escape character designated for each arrow, hot key and function key code, as the
help text and the specification list them: `^ . < >` for the arrows, `R P S U N X D H` for
record, playback, seed, undo, restart, quit, debug and help, `1` to `9` and `0` for F1 to
F10. Each pair is the escape character and the code. -/
def designated_escapes (zc : ZCodes) : List (Nat × Nat) :=
  [(94, zc.ZC_ARROW_UP), (46, zc.ZC_ARROW_DOWN), (60, zc.ZC_ARROW_LEFT), (62, zc.ZC_ARROW_RIGHT),
   (82, zc.ZC_HKEY_RECORD), (80, zc.ZC_HKEY_PLAYBACK), (83, zc.ZC_HKEY_SEED),
   (85, zc.ZC_HKEY_UNDO), (78, zc.ZC_HKEY_RESTART), (88, zc.ZC_HKEY_QUIT),
   (68, zc.ZC_HKEY_DEBUG), (72, zc.ZC_HKEY_HELP),
   (49, zc.ZC_FKEY_F1), (50, zc.ZC_FKEY_F2), (51, zc.ZC_FKEY_F3), (52, zc.ZC_FKEY_F4),
   (53, zc.ZC_FKEY_F5), (54, zc.ZC_FKEY_F6), (55, zc.ZC_FKEY_F7), (56, zc.ZC_FKEY_F8),
   (57, zc.ZC_FKEY_F9), (48, zc.ZC_FKEY_F10)]

/-- The character escapes of the help text (`runtime_usage`, lines 63-64: backslash, `#`
backspace, `[` escape, `_` return), each with the code the text gives it. -/
def help_character_escapes (zc : ZCodes) : List (Nat × Nat) :=
  [(92, 92), (35, zc.ZC_BACKSPACE), (91, zc.ZC_ESCAPE), (95, zc.ZC_RETURN)]

/-- The characters that the inner `switch` of `translate_special_chars` has a `case` for. -/
def recognised_escapes : List Nat :=
  [10, 92, 63, 91, 95, 94, 46, 60, 62, 82, 80, 83, 85, 78, 88, 68, 72,
   49, 50, 51, 52, 53, 54, 55, 56, 57, 48]

/-- Whether the string ends in a backslash that is not the second character of an escape: read
from the left, a backslash takes the next character with it. -/
def ends_in_unpaired_backslash : CStr → Bool
  | [] => false
  | c :: rest =>
    if c = 92 then
      match rest with
      | [] => true
      | _ :: rest2 => ends_in_unpaired_backslash rest2
    else ends_in_unpaired_backslash rest

/-! ## Properties -/

/-- What the loop of lines 590-595 leaves out: from the index it returns on (from index 1 on
when it returns 0), no byte up to the start index is the separator. -/
theorem scan_separator_spec (sep : Nat) (fn : CStr) (i k : Nat)
    (h1 : scan_separator sep fn i ≤ k) (h2 : 1 ≤ k) (h3 : k ≤ i) : byte_at fn k ≠ sep := by
  induction i with
  | zero => omega
  | succ n ih =>
    unfold scan_separator at h1
    by_cases hs : byte_at fn (n + 1) = sep
    · rw [if_pos hs] at h1; omega
    · rw [if_neg hs] at h1
      by_cases hk : k = n + 1
      · rw [hk]; exact hs
      · exact ih h1 (by omega)

/-- After the index the scan returns, the name holds the separator at most as first byte. -/
theorem scan_separator_tail (sep : Nat) (fn : CStr) :
    sep ∉ (fn.drop (scan_separator sep fn fn.length)).drop 1 := by
  intro hmem
  rw [List.drop_drop] at hmem
  obtain ⟨m, hm, hget⟩ := List.getElem_of_mem hmem
  rw [List.getElem_drop] at hget
  rw [List.length_drop] at hm
  have := scan_separator_spec sep fn fn.length (scan_separator sep fn fn.length + 1 + m)
    (by omega) (by omega) (by omega)
  apply this
  unfold byte_at
  rw [List.getD_eq_getElem _ _ (by omega)]
  exact hget

/-- Shape of a rewritten name: the root, at most one added separator, then a prefix of what
follows the index the scan returned. -/
theorem restrict_file_name_shape (P : Platform) (root fn p : CStr)
    (h : restrict_file_name P root fn = some p) :
    ∃ sp tail, p = root ++ sp ++ tail ∧ (sp = [] ∨ sp = [P.PATH_SEPARATOR]) ∧
      tail <+: fn.drop (scan_separator P.PATH_SEPARATOR fn fn.length) := by
  unfold restrict_file_name at h
  simp only [strncat] at h
  split at h
  · exact absurd h (by simp)
  · split at h
    · -- a separator is appended, if the bound lets it
      split at h
      · simp only [Option.some.injEq] at h
        subst h
        refine ⟨_, _, rfl, ?_, List.take_prefix _ _⟩
        generalize size_sub P.size_bits (size_sub P.size_bits P.FILENAME_MAX root.length) 2 = n
        cases n with
        | zero => left; rfl
        | succ k => right; simp
      · exact absurd h (by simp)
    · split at h
      · simp only [Option.some.injEq] at h
        rw [← List.append_nil root] at h
        subst h
        exact ⟨[], _, rfl, Or.inl rfl, List.take_prefix _ _⟩
      · exact absurd h (by simp)

/-- A rewritten name starts with the root, and after the root the separator occurs at most
among the next two bytes. -/
theorem restrict_file_name_under_root (P : Platform) (root fn p : CStr)
    (h : restrict_file_name P root fn = some p) :
    root <+: p ∧ P.PATH_SEPARATOR ∉ (p.drop (root.length + 2)) := by
  obtain ⟨sp, tail, hp, hsp, htail⟩ := restrict_file_name_shape P root fn p h
  have hno : P.PATH_SEPARATOR ∉ tail.drop 1 := by
    intro hm
    obtain ⟨t, ht⟩ := htail
    have h2 : P.PATH_SEPARATOR ∈ (tail ++ t).drop 1 := by
      cases tail with
      | nil => simp at hm
      | cons a as => simp only [List.cons_append, List.drop_succ_cons, List.drop_zero] at hm ⊢
                     exact List.mem_append_left _ hm
    rw [ht] at h2
    exact scan_separator_tail _ _ h2
  refine ⟨⟨sp ++ tail, by rw [hp, List.append_assoc]⟩, ?_⟩
  rw [hp, List.append_assoc, ← List.drop_drop, List.drop_left]
  rcases hsp with hs | hs
  · subst hs
    intro hm
    exact hno (List.mem_of_mem_drop (by simpa [List.drop_drop] using hm))
  · subst hs
    simpa using hno

/-- A name returned by the last part of `os_read_file_name` under a restricted path is the
rewritten name. -/
theorem finish_file_name_restricted (P : Platform) (f : Setup) (flag : file_flag) (buf : CStr)
    (g : Session) (input : List Line) (root : CStr) (r : FileResult) (p : CStr)
    (hroot : f.restricted_path = some root)
    (hrun : finish_file_name P f flag buf g input = .done r) (hname : r.name = some p) :
    restrict_file_name P root buf = some p := by
  unfold finish_file_name at hrun
  rw [hroot] at hrun
  simp only at hrun
  split at hrun
  · exact absurd hrun (by simp)
  · split at hrun
    · exact absurd hrun (by simp)
    · rename_i file_name hfn
      rw [hfn]
      split at hrun
      · split at hrun
        · split at hrun
          · simp only [Run.done.injEq] at hrun
            subst hrun
            simpa using hname
          · simp only [Run.done.injEq] at hrun
            subst hrun
            simp at hname
        · exact absurd hrun (by simp)
        · exact absurd hrun (by simp)
      · simp only [Run.done.injEq] at hrun
        subst hrun
        simpa using hname

/-- C1 (amended). With a restricted path configured and no restore in progress, every name
`os_read_file_name` returns starts with the restricted path, and after the restricted path the
path separator occurs at most among the next two bytes: the name has a single component after
the root. This holds for every default name, flag, session state and input stream. -/
theorem os_read_file_name_under_root (P : Platform) (f : Setup) (g : Session)
    (default_name : CStr) (flag : file_flag) (input : List Line) (root : CStr) (r : FileResult)
    (p : CStr) (hmode : f.restore_mode = false) (hroot : f.restricted_path = some root)
    (hrun : os_read_file_name P f g default_name flag input = .done r)
    (hname : r.name = some p) :
    root <+: p ∧ P.PATH_SEPARATOR ∉ p.drop (root.length + 2) := by
  unfold os_read_file_name at hrun
  rw [hmode, hroot] at hrun
  simp only [Bool.false_eq_true, if_false] at hrun
  by_cases hflag : flag = file_flag.FILE_NO_PROMPT
  · rw [if_pos hflag] at hrun
    cases hs : strrchr default_name 46 with
    | none => rw [hs] at hrun; exact absurd hrun (by simp)
    | some ext =>
      rw [hs] at hrun
      simp only at hrun
      split at hrun
      · simp only [Run.done.injEq] at hrun
        subst hrun
        simp at hname
      · exact restrict_file_name_under_root P root _ p
          (finish_file_name_restricted P f flag _ g input root r p hroot hrun hname)
  · rw [if_neg hflag] at hrun
    split at hrun
    · exact absurd hrun (by simp)
    · cases hm : dumb_read_misc_line P g input with
      | undefined => rw [hm] at hrun; exact absurd hrun (by simp)
      | eof => rw [hm] at hrun; exact absurd hrun (by simp)
      | done fullpath =>
        rw [hm] at hrun
        simp only at hrun
        generalize (if fullpath.s.length = 0 then strndup default_name P.MAX_FILE_NAME
          else strndup fullpath.s P.MAX_FILE_NAME) = buf at hrun
        by_cases hl : buf.length > P.MAX_FILE_NAME
        · rw [if_pos hl] at hrun
          simp only [Run.done.injEq] at hrun
          subst hrun
          simp at hname
        · rw [if_neg hl] at hrun
          exact restrict_file_name_under_root P root _ p
            (finish_file_name_restricted P f flag _ _ _ root r p hroot hrun hname)

/-- Witness for C1 (amended): under the root `/home/user/saves` the answer `a/b/game.sav` gives
`/home/user/saves/game.sav`. -/
theorem os_read_file_name_under_root_witness :
    bytes "/home/user/saves" <+: bytes "/home/user/saves/game.sav" ∧
      unix_platform.PATH_SEPARATOR ∉
        (bytes "/home/user/saves/game.sav").drop ((bytes "/home/user/saves").length + 2) :=
  os_read_file_name_under_root unix_platform
    { restore_mode := false, restricted_path := some (bytes "/home/user/saves") }
    initial_session (bytes "save.aux") file_flag.FILE_RESTORE
    [{ raw := bytes "a/b/game.sav", now := 0 }] (bytes "/home/user/saves")
    { name := some (bytes "/home/user/saves/game.sav"), g := initial_session, rest := [] }
    (bytes "/home/user/saves/game.sav") rfl rfl (by decide) rfl

/-- C1 as stated fails. With a restore in progress the default name `../x` is returned as it
is, outside the root `/sandbox`; with no restore in progress the answer `..` gives
`/sandbox/..`, whose last component is the parent directory. -/
theorem os_read_file_name_escapes_root :
    os_read_file_name unix_platform
        { restore_mode := true, restricted_path := some (bytes "/sandbox") }
        initial_session (bytes "../x") file_flag.FILE_RESTORE []
      = .done { name := some (bytes "../x"), g := initial_session, rest := [] }
    ∧ ¬ (bytes "/sandbox" <+: bytes "../x")
    ∧ os_read_file_name unix_platform
        { restore_mode := false, restricted_path := some (bytes "/sandbox") }
        initial_session (bytes "save.aux") file_flag.FILE_RESTORE [{ raw := bytes "..", now := 0 }]
      = .done { name := some (bytes "/sandbox/.."), g := initial_session, rest := [] } := by
  refine ⟨by decide, by decide, by decide⟩


/-- C2: the code loses the final component. Under the root `/sandbox` the answer `game.sav`
(and likewise `a/b/game.sav`) is resolved, but the name returned is `/sandbox/`: the bound of
the last `strncat` (line 603) is the length of the root minus the length of the component
minus one, here 0. An answer `/x` keeps its separator and gives `/sandbox//x`, because the
scan of lines 590-595 does not look at index 0. -/
theorem os_read_file_name_loses_component :
    os_read_file_name unix_platform
        { restore_mode := false, restricted_path := some (bytes "/sandbox") }
        initial_session (bytes "save.aux") file_flag.FILE_RESTORE
        [{ raw := bytes "game.sav", now := 0 }]
      = .done { name := some (bytes "/sandbox/"), g := initial_session, rest := [] }
    ∧ os_read_file_name unix_platform
        { restore_mode := false, restricted_path := some (bytes "/sandbox") }
        initial_session (bytes "save.aux") file_flag.FILE_RESTORE
        [{ raw := bytes "a/b/game.sav", now := 0 }]
      = .done { name := some (bytes "/sandbox/"), g := initial_session, rest := [] }
    ∧ os_read_file_name unix_platform
        { restore_mode := false, restricted_path := some (bytes "/sandbox") }
        initial_session (bytes "save.aux") file_flag.FILE_RESTORE
        [{ raw := bytes "/x", now := 0 }]
      = .done { name := some (bytes "/sandbox//x"), g := initial_session, rest := [] } := by
  refine ⟨by decide, by decide, by decide⟩

/-- Bytes of a C string read from a buffer are not NUL. -/
theorem cstr_ne_zero (buf : List Nat) (c : Nat) (h : c ∈ cstr buf) : c ≠ 0 := by
  have := List.mem_takeWhile_imp h
  simpa using this

/-- The test of line 265 in terms of the first two characters of a line without NUL. -/
theorem is_command_line_iff (s : CStr) (hs : ∀ c ∈ s, c ≠ 0) :
    is_command_line s = true ↔
      (s.head? = some 92 ∧ (s.length ≤ 1 ∨ (97 ≤ s.getD 1 0 ∧ s.getD 1 0 ≤ 122))) := by
  match s with
  | [] => simp [is_command_line, byte_at]
  | [a] => simp [is_command_line, byte_at]
  | a :: b :: t =>
    have hb : b ≠ 0 := hs b (by simp)
    simp [is_command_line, byte_at, islower, hb]

/-- A command line never comes back as data: the loop goes on, or the call returns timed out
with the buffer cleared. -/
theorem dumb_read_line_command_no_data (P : Platform) (st : Loop) (s : CStr) (now : Int) :
    (∃ st2, dumb_read_line_command P st s now = .next st2) ∨
      (∃ r, dumb_read_line_command P st s now = .ret r ∧ r.timed_out = true ∧ r.s = []) := by
  unfold dumb_read_line_command
  simp only
  repeat' split
  all_goals first | exact Or.inl ⟨_, rfl⟩ | exact Or.inr ⟨_, rfl, rfl, rfl⟩

/-- On bytes without NUL the loop on the stored line is `translate_special_chars`. -/
theorem translate_stored_eq (zc : ZCodes) :
    ∀ (n : Nat) (s : List Nat), s.length ≤ n → (∀ c ∈ s, c ≠ 0) →
      translate_stored zc s = translate_special_chars zc s := by
  intro n
  induction n with
  | zero =>
    intro s hn _
    have : s = [] := List.length_eq_zero.mp (by omega)
    subst this
    simp [translate_stored, translate_special_chars]
  | succ n ih =>
    intro s hn h0
    match s with
    | [] => simp [translate_stored, translate_special_chars]
    | [c] =>
      have hc : c ≠ 0 := h0 c (by simp)
      simp [translate_stored, translate_special_chars, hc]
    | c :: e :: rest =>
      have hc : c ≠ 0 := h0 c (by simp)
      have h1 := ih (e :: rest) (by simp at hn ⊢; omega) (fun x hx => h0 x (by simp at hx ⊢; tauto))
      have h2 := ih rest (by simp at hn ⊢; omega) (fun x hx => h0 x (by simp at hx ⊢; tauto))
      simp only [translate_stored, translate_special_chars, if_neg hc] at h1 h2 ⊢
      by_cases h10 : c = 10
      · simp only [if_pos h10]
        rw [← h1]
      · simp only [if_neg h10]
        by_cases h92 : c = 92
        · simp only [if_pos h92]
          rw [h2]
        · simp only [if_neg h92]
          rw [← h1]

/-- The loop on a stored line never leaves it: the line ends in a newline, and the NUL behind
the newline ends the loop. -/
theorem translate_stored_line (zc : ZCodes) :
    ∀ (n : Nat) (body : List Nat), body.length ≤ n →
      (translate_stored zc (body ++ [10])).isSome = true := by
  intro n
  induction n with
  | zero =>
    intro body hn
    have : body = [] := List.length_eq_zero.mp (by omega)
    subst this
    simp [translate_stored]
  | succ n ih =>
    intro body hn
    match body with
    | [] => simp [translate_stored]
    | [c] =>
      by_cases hc : c = 0
      · simp [translate_stored, hc]
      · by_cases h10 : c = 10
        · simp [translate_stored, h10]
        · by_cases h92 : c = 92
          · simp [translate_stored, h92]
          · simp [translate_stored, hc, h10, h92]
    | c :: e :: rest =>
      have h1 := ih (e :: rest) (by simp at hn ⊢; omega)
      have h2 := ih rest (by simp at hn ⊢; omega)
      by_cases hc : c = 0
      · simp [translate_stored, hc]
      · by_cases h10 : c = 10
        · simp only [List.cons_append, translate_stored, if_neg hc, if_pos h10] at h1 ⊢
          simpa using h1
        · by_cases h92 : c = 92
          · simp only [List.cons_append, translate_stored, if_neg hc, if_neg h10, if_pos h92]
            simpa using h2
          · simp only [List.cons_append, translate_stored, if_neg hc, if_neg h10, if_neg h92]
              at h1 ⊢
            simpa using h1

/-- The translation of the line that `dumb_getline` stored is always defined. -/
theorem translate_stored_dumb_getline (P : Platform) (raw : List Nat) :
    ∃ out, translate_stored P.zc (dumb_getline P raw) = some out :=
  Option.isSome_iff_exists.mp (translate_stored_line P.zc _ _ (le_refl _))

/-- C3 (amended). At the top of the loop of `dumb_read_line`, the line read is treated as a
command exactly when its first character is the backslash and its second character is absent
or is a lowercase letter: such a line never comes back as data (the loop goes on, or the call
returns timed out with an empty buffer); every other line goes through the escape translator
and what the translator wrote is returned. The characters are those of the C string in the
buffer; on a line without NUL the translation is that of `translate_special_chars`. -/
theorem dumb_read_line_step_classification (P : Platform) (st : Loop) (ev : Line)
    (htop : st.help_left = none) :
    ((cstr (dumb_getline P ev.raw)).head? = some 92 ∧
        ((cstr (dumb_getline P ev.raw)).length ≤ 1 ∨
          (97 ≤ (cstr (dumb_getline P ev.raw)).getD 1 0 ∧
            (cstr (dumb_getline P ev.raw)).getD 1 0 ≤ 122)) →
      (∃ st2, dumb_read_line_step P st ev = .next st2) ∨
        (∃ r, dumb_read_line_step P st ev = .ret r ∧ r.timed_out = true ∧ r.s = []))
    ∧ (¬ ((cstr (dumb_getline P ev.raw)).head? = some 92 ∧
        ((cstr (dumb_getline P ev.raw)).length ≤ 1 ∨
          (97 ≤ (cstr (dumb_getline P ev.raw)).getD 1 0 ∧
            (cstr (dumb_getline P ev.raw)).getD 1 0 ≤ 122))) →
      ∃ out r, translate_stored P.zc (dumb_getline P ev.raw) = some out ∧
        ((∀ b ∈ ev.raw, b ≠ 0) →
          translate_special_chars P.zc (dumb_getline P ev.raw) = some out) ∧
        dumb_read_line_step P st ev = .ret r ∧ r.s = cstr out) := by
  have hiff := is_command_line_iff (cstr (dumb_getline P ev.raw))
    (fun c hc => cstr_ne_zero _ c hc)
  constructor
  · intro h
    have hc := hiff.mpr h
    unfold dumb_read_line_step
    simp only [htop, hc, Bool.not_true, Bool.false_eq_true, if_false]
    exact dumb_read_line_command_no_data P st _ ev.now
  · intro h
    have hc : is_command_line (cstr (dumb_getline P ev.raw)) = false := by
      cases hq : is_command_line (cstr (dumb_getline P ev.raw)) with
      | false => rfl
      | true => exact absurd (hiff.mp hq) h
    obtain ⟨out, hout⟩ := translate_stored_dumb_getline P ev.raw
    have hplain : (∀ b ∈ ev.raw, b ≠ 0) →
        translate_special_chars P.zc (dumb_getline P ev.raw) = some out := by
      intro h0
      rw [← translate_stored_eq P.zc _ (dumb_getline P ev.raw) (le_refl _)]
      · exact hout
      · intro c hc
        unfold dumb_getline at hc
        simp only [List.mem_append, List.mem_singleton] at hc
        rcases hc with hc | hc
        · exact h0 c (List.mem_of_mem_take hc)
        · omega
    unfold dumb_read_line_step
    simp only [htop, hc, hout, Bool.not_false, if_true]
    split
    · exact ⟨out, _, rfl, hplain, rfl, rfl⟩
    · exact ⟨out, _, rfl, hplain, rfl, rfl⟩

/-- Witness for C3 (amended): with a timeout of 5 the line `\t` is a command and ends the read
as timed out; the line `\H` is data and comes back as the help hot key and RETURN. -/
theorem dumb_read_line_step_classification_witness :
    ((∃ st2, dumb_read_line_step unix_platform
          { g := initial_session, timeout := 5, start_time := 0, type := input_type.INPUT_LINE,
            continued_line_chars := none, help_left := none }
          { raw := bytes "\\t", now := 0 } = .next st2) ∨
        (∃ r, dumb_read_line_step unix_platform
          { g := initial_session, timeout := 5, start_time := 0, type := input_type.INPUT_LINE,
            continued_line_chars := none, help_left := none }
          { raw := bytes "\\t", now := 0 } = .ret r ∧ r.timed_out = true ∧ r.s = []))
    ∧ (∃ out r, translate_stored unix_platform.zc
            (dumb_getline unix_platform (bytes "\\H")) = some out ∧
          ((∀ b ∈ bytes "\\H", b ≠ 0) →
            translate_special_chars unix_platform.zc
              (dumb_getline unix_platform (bytes "\\H")) = some out) ∧
          dumb_read_line_step unix_platform
            { g := initial_session, timeout := 5, start_time := 0, type := input_type.INPUT_LINE,
              continued_line_chars := none, help_left := none }
            { raw := bytes "\\H", now := 0 } = .ret r ∧ r.s = cstr out) :=
  ⟨(dumb_read_line_step_classification unix_platform
      { g := initial_session, timeout := 5, start_time := 0, type := input_type.INPUT_LINE,
        continued_line_chars := none, help_left := none }
      { raw := bytes "\\t", now := 0 } rfl).1 (by decide),
   (dumb_read_line_step_classification unix_platform
      { g := initial_session, timeout := 5, start_time := 0, type := input_type.INPUT_LINE,
        continued_line_chars := none, help_left := none }
      { raw := bytes "\\H", now := 0 } rfl).2 (by decide)⟩

/-- C3 as stated fails, in both directions. The line `\t` has a lowercase second character,
so the stated rule makes it data, yet with a timeout of 5 the code takes it as the command
`t` and returns timed out with an empty buffer. The line `\H` has a second character that
is not lowercase, so the stated rule makes it a command, yet the code returns it as data
(the help hot key and RETURN). -/
theorem dumb_read_line_classification_differs :
    spec_command_line (cstr (dumb_getline unix_platform (bytes "\\t"))) = false
    ∧ dumb_read_line unix_platform initial_session [] 5 input_type.INPUT_LINE none 0
        [{ raw := bytes "\\t", now := 0 }]
      = .done ({ timed_out := true, s := [], g := initial_session,
                 continued_line_chars := none }, [])
    ∧ spec_command_line (cstr (dumb_getline unix_platform (bytes "\\H"))) = true
    ∧ dumb_read_line unix_platform initial_session [] 0 input_type.INPUT_LINE none 0
        [{ raw := bytes "\\H", now := 0 }]
      = .done ({ timed_out := false, s := [0x15, 0x0d], g := initial_session,
                 continued_line_chars := none }, []) := by
  refine ⟨by decide, by decide, by decide, by decide⟩


/-- C4 (amended). When a line that is not a command arrives during a timed read (remaining
timeout `T > 0`) and the simulated elapsed time is `E`, the `int` that line 269 computes: if
`E > T` the read reports a timeout and `time_ahead` becomes `E - T`; if `E ≤ T` (equality
included) the read does not time out and `time_ahead` keeps its value. In both cases the
translated line is left in the buffer. -/
theorem dumb_read_line_step_data_timeout (P : Platform) (st : Loop) (ev : Line) (out : List Nat)
    (htop : st.help_left = none) (hT : 0 < st.timeout)
    (hdata : is_command_line (cstr (dumb_getline P ev.raw)) = false)
    (hout : translate_stored P.zc (dumb_getline P ev.raw) = some out) :
    (elapsed_time ev.now st.start_time st.g.speed > st.timeout →
      dumb_read_line_step P st ev =
        .ret { timed_out := true, s := cstr out,
               g := { st.g with
                      time_ahead := elapsed_time ev.now st.start_time st.g.speed - st.timeout },
               continued_line_chars := st.continued_line_chars })
    ∧ (elapsed_time ev.now st.start_time st.g.speed ≤ st.timeout →
      dumb_read_line_step P st ev =
        .ret { timed_out := false, s := cstr out, g := st.g,
               continued_line_chars := st.continued_line_chars }) := by
  have hne : st.timeout ≠ 0 := by omega
  constructor
  · intro hE
    unfold dumb_read_line_step
    simp only [htop, hdata, hout, Bool.not_false, if_true]
    rw [if_pos ⟨hne, hE⟩]
  · intro hE
    unfold dumb_read_line_step
    simp only [htop, hdata, hout, Bool.not_false, if_true]
    rw [if_neg (by omega)]

set_option maxRecDepth 100000 in
/-- Witness for C4 (amended), the instance of the specification: speed factor 2, remaining
timeout 10, the line `x` arriving one second after the start. The simulated elapsed time is
20, the read times out and `time_ahead` becomes 10. The same holds for the whole call when
the speed factor is set by the command `\sf2.0` during the read. -/
theorem dumb_read_line_step_data_timeout_witness :
    elapsed_time 1 0 { num := 2, den := 1 } = 20
    ∧ dumb_read_line unix_platform initial_session [] 10 input_type.INPUT_LINE none 0
        [{ raw := bytes "\\sf2.0", now := 0 }, { raw := bytes "x", now := 1 }]
      = .done ({ timed_out := true, s := [120, 13],
                 g := { time_ahead := 10, speed := { num := 2, den := 1 },
                        do_more_prompts := false },
                 continued_line_chars := none }, [])
    ∧ dumb_read_line_step unix_platform
        { g := { time_ahead := 0, speed := { num := 2, den := 1 }, do_more_prompts := false },
          timeout := 10, start_time := 0, type := input_type.INPUT_LINE,
          continued_line_chars := none, help_left := none }
        { raw := bytes "x", now := 1 }
      = .ret { timed_out := true, s := [120, 13],
               g := { time_ahead := 10, speed := { num := 2, den := 1 },
                      do_more_prompts := false },
               continued_line_chars := none } :=
  ⟨by decide, by decide,
   (dumb_read_line_step_data_timeout unix_platform
      { g := { time_ahead := 0, speed := { num := 2, den := 1 }, do_more_prompts := false },
        timeout := 10, start_time := 0, type := input_type.INPUT_LINE,
        continued_line_chars := none, help_left := none }
      { raw := bytes "x", now := 1 } [120, 13] rfl (by decide) (by decide) (by decide)).1
      (by decide)⟩

set_option maxRecDepth 100000 in
/-- C4 as stated fails when the elapsed time equals the timeout. With speed factor 1 and a
timeout of 10, a line that arrives after one second has simulated elapsed time 10, and the
read returns the line without timing out. It also fails where single precision rounds: with
the speed factor of `\sf2.1` a line that arrives after three seconds has the simulated elapsed
time 62, where 3 x 10 x 2.1 is 63, and a read with a timeout of 62 returns the line without
timing out. -/
theorem dumb_read_line_no_timeout_at_equality :
    elapsed_time 1 0 initial_session.speed = 10
    ∧ dumb_read_line unix_platform initial_session [] 10 input_type.INPUT_LINE none 0
        [{ raw := bytes "x", now := 1 }]
      = .done ({ timed_out := false, s := [120, 13], g := initial_session,
                 continued_line_chars := none }, [])
    ∧ atof_decimal (bytes "2.1") = to_double { num := 21, den := 10 }
    ∧ elapsed_time 3 0 (to_float (atof_decimal (bytes "2.1"))) = 62
    ∧ dumb_read_line unix_platform initial_session [] 62 input_type.INPUT_LINE none 0
        [{ raw := bytes "\\sf2.1", now := 0 }, { raw := bytes "x", now := 3 }]
      = .done ({ timed_out := false, s := [120, 13],
                 g := { time_ahead := 0, speed := { num := 4404019, den := 2097152 },
                        do_more_prompts := false },
                 continued_line_chars := none }, []) := by
  refine ⟨by decide, by decide, by decide, by decide, by decide⟩

/-- C5 (amended). For every value `A` of `time_ahead` and every requested timeout `T`: if
`0 < T < A`, `time_ahead` becomes `A - T` and `check_timeout` reports a timeout; if `T = A`,
or `T = 0`, or `T > A`, `time_ahead` becomes 0 and no timeout is reported. -/
theorem check_timeout_spec (A T : Int) :
    (0 < T ∧ T < A → check_timeout T A = (A - T, true))
    ∧ (T = 0 ∨ T ≥ A → check_timeout T A = (0, false)) := by
  constructor
  · rintro ⟨h1, h2⟩
    unfold check_timeout
    simp only
    rw [if_neg (by omega)]
    have : A - T ≠ 0 := by omega
    simp [this]
  · intro h
    unfold check_timeout
    simp only
    by_cases hc : T = 0 ∨ T > A
    · rw [if_pos hc]; rfl
    · rw [if_neg hc]
      have : A - T = 0 := by omega
      simp [this]

/-- Witness for C5 (amended): with 5 tenths ahead, a timeout of 3 is served from the bank and
leaves 2; a timeout of 8 clears the bank. -/
theorem check_timeout_spec_witness :
    check_timeout 3 5 = (5 - 3, true) ∧ check_timeout 8 5 = (0, false) :=
  ⟨(check_timeout_spec 5 3).1 ⟨by decide, by decide⟩,
   (check_timeout_spec 5 8).2 (Or.inr (by decide))⟩

/-- C5 as stated fails when the timeout equals the bank: with `time_ahead = 5` and a timeout
of 5, `time_ahead` becomes 0 and `check_timeout` reports no timeout. -/
theorem check_timeout_equal_no_timeout : check_timeout 5 5 = (0, false) := by
  decide


/-- Within the range of `int`, `atoi` gives the number that the text denotes. -/
theorem atoi_of_int_range (s : CStr) (hmin : -2147483648 ≤ number_value s)
    (hmax : number_value s ≤ 2147483647) : atoi s = number_value s := by
  unfold atoi strtol to_int
  rw [min_eq_left (by omega), max_eq_right (by omega)]
  omega

/-- The result of `atoi` is in the range of `int`. -/
theorem atoi_range (s : CStr) : -2147483648 ≤ atoi s ∧ atoi s ≤ 2147483647 := by
  unfold atoi to_int
  omega

/-- The command `w` with an argument: the step of the loop for the line `\w<arg>` when `arg`
reads as a number other than 0. -/
theorem dumb_read_line_step_w_arg (P : Platform) (st : Loop) (ev : Line) (arg : CStr)
    (htop : st.help_left = none)
    (hline : cstr (dumb_getline P ev.raw) = 92 :: 119 :: (arg ++ [10])) (hN : atoi arg ≠ 0) :
    dumb_read_line_step P st ev =
      if st.timeout ≠ 0 then
        if atoi arg ≥ st.timeout then
          .ret { timed_out := true, s := [], g := { st.g with time_ahead := atoi arg - st.timeout },
                 continued_line_chars := st.continued_line_chars }
        else .next { st with timeout := st.timeout - atoi arg, start_time := ev.now }
      else .next st := by
  have hcmd : ((92 :: 119 :: (arg ++ [10])).drop 1).dropLast = 119 :: arg := by
    simp [List.dropLast_cons_of_ne_nil]
  unfold dumb_read_line_step
  simp only [htop, hline]
  have hc : is_command_line (92 :: 119 :: (arg ++ [10])) = true := by
    simp [is_command_line, byte_at, islower]
  rw [hc]
  simp only [Bool.not_true, Bool.false_eq_true, if_false]
  unfold dumb_read_line_command
  simp only [hcmd]
  have h1 : (119 :: arg : List Nat) ≠ [116] := by simp
  rw [if_neg h1]
  have h2 : byte_at (119 :: arg) 0 = 119 := rfl
  rw [if_pos h2]
  simp only [List.drop_succ_cons, List.drop_zero, if_neg hN, htop]

/-- C6 (amended). The command `w` with an argument that denotes a number `N` with
`0 < N ≤ 2147483647`, the largest `int`, read at the top of the loop of `dumb_read_line`.
During a timed read with remaining timeout `R > 0`: if `N ≥ R` the read returns timed out,
`time_ahead` is `N - R` and the buffer is empty; if `N < R` the loop goes on with remaining
timeout `R - N` and the time of the command as new time reference. With no timeout
(`timeout = 0`) the state is unchanged. In the scenario of the specification (timeout 50,
nothing banked, `\w30` then `\t`) the read returns timed out with nothing banked. -/
theorem dumb_read_line_w_command (P : Platform) (st : Loop) (ev : Line) (arg : CStr) (N : Int)
    (htop : st.help_left = none)
    (hline : cstr (dumb_getline P ev.raw) = 92 :: 119 :: (arg ++ [10]))
    (hN : number_value arg = N) (hpos : 0 < N) (hmax : N ≤ 2147483647) :
    (0 < st.timeout → N ≥ st.timeout →
      dumb_read_line_step P st ev =
        .ret { timed_out := true, s := [], g := { st.g with time_ahead := N - st.timeout },
               continued_line_chars := st.continued_line_chars })
    ∧ (0 < st.timeout → N < st.timeout →
      dumb_read_line_step P st ev =
        .next { st with timeout := st.timeout - N, start_time := ev.now })
    ∧ (st.timeout = 0 → dumb_read_line_step P st ev = .next st)
    ∧ dumb_read_line unix_platform initial_session [] 50 input_type.INPUT_LINE none 0
        [{ raw := bytes "\\w30", now := 0 }, { raw := bytes "\\t", now := 0 }]
      = .done ({ timed_out := true, s := [], g := { initial_session with time_ahead := 0 },
                 continued_line_chars := none }, []) := by
  have hatoi : atoi arg = N := by
    rw [atoi_of_int_range arg (by omega) (by omega), hN]
  have hstep := dumb_read_line_step_w_arg P st ev arg htop hline (by omega)
  rw [hatoi] at hstep
  refine ⟨?_, ?_, ?_, by decide⟩
  · intro hR hge
    rw [hstep, if_pos (by omega), if_pos hge]
  · intro hR hlt
    rw [hstep, if_pos (by omega), if_neg (by omega)]
  · intro h0
    rw [hstep, if_neg (by simp [h0])]

/-- Witness for C6 (amended): with remaining timeout 50 the line `\w30` leaves a remaining
timeout of 20 and restarts the time reference at the time of the command. -/
theorem dumb_read_line_w_command_witness :
    dumb_read_line_step unix_platform
        { g := initial_session, timeout := 50, start_time := 0, type := input_type.INPUT_LINE,
          continued_line_chars := none, help_left := none }
        { raw := bytes "\\w30", now := 2 }
      = .next { g := initial_session, timeout := 20, start_time := 2,
                type := input_type.INPUT_LINE, continued_line_chars := none,
                help_left := none } :=
  (dumb_read_line_w_command unix_platform
      { g := initial_session, timeout := 50, start_time := 0, type := input_type.INPUT_LINE,
        continued_line_chars := none, help_left := none }
      { raw := bytes "\\w30", now := 2 } (bytes "30") 30 rfl (by decide) (by decide)
      (by decide) (by decide)).2.1 (by decide) (by decide)

set_option maxRecDepth 100000 in
/-- C6 as stated fails for an argument beyond the range of `int`. The argument of
`\w4294967296` denotes a number above the remaining timeout of 50, so the read should return
timed out; but `atoi` reads it as 0, which the code takes for a missing argument: it uses the
clock instead (20 tenths after two seconds at speed factor 1), the loop goes on with a
remaining timeout of 30, and the whole call returns the next line, not timed out. -/
theorem dumb_read_line_w_beyond_int :
    number_value (bytes "4294967296") = 4294967296
    ∧ atoi (bytes "4294967296") = 0
    ∧ dumb_read_line_step unix_platform
        { g := initial_session, timeout := 50, start_time := 0, type := input_type.INPUT_LINE,
          continued_line_chars := none, help_left := none }
        { raw := bytes "\\w4294967296", now := 2 }
      = .next { g := initial_session, timeout := 30, start_time := 2,
                type := input_type.INPUT_LINE, continued_line_chars := none,
                help_left := none }
    ∧ dumb_read_line unix_platform initial_session [] 50 input_type.INPUT_LINE none 0
        [{ raw := bytes "\\w4294967296", now := 0 }, { raw := bytes "x", now := 0 }]
      = .done ({ timed_out := false, s := [120, 13], g := initial_session,
                 continued_line_chars := none }, []) := by
  refine ⟨by decide, by decide, by decide, by decide⟩

/-- C7. For every table of key codes whose arrow, hot key and function key codes are non-zero
bytes, and each of these 22 codes: the two-character string made of the backslash and the
code's designated escape character translates to exactly the one code, and the buffer then
holds the one-character string of that code. -/
theorem translate_special_chars_round_trip (zc : ZCodes)
    (hbyte : ∀ p ∈ designated_escapes zc, 0 < p.2 ∧ p.2 < 256) :
    ∀ p ∈ designated_escapes zc,
      translate_special_chars zc [92, p.1] = some [p.2] ∧ cstr [p.2] = [p.2] := by
  intro p hp
  have hb := hbyte p hp
  have hmod : p.2 % 256 = p.2 := Nat.mod_eq_of_lt hb.2
  have hne : p.2 ≠ 0 := by omega
  refine ⟨?_, by simp [cstr, hne]⟩
  simp only [designated_escapes, List.mem_cons, List.mem_singleton, List.not_mem_nil,
    or_false] at hp
  rcases hp with h | h | h | h | h | h | h | h | h | h | h | h | h | h | h | h | h | h | h | h
    | h | h <;> subst h <;>
    simpa [translate_special_chars, escape_code, to_char] using hmod

/-- Witness for C7, with the codes of Frotz: `\^` translates to the code 0x81 of the up
arrow. -/
theorem translate_special_chars_round_trip_witness :
    translate_special_chars frotz_codes [92, 94] = some [0x81] ∧ cstr [0x81] = [0x81] :=
  translate_special_chars_round_trip frotz_codes (by decide) (94, 0x81) (by decide)

/-- C8: the code does not accept the backspace escape of the help text. The help text lists
`\#` as backspace, but the translator has no case for `#`: in a data line `\#` is dropped as
an unknown escape and only the RETURN of the newline is written. The backspace code is
written for `\?`, which the help text does not list. The three other character escapes of
the help text are translated as listed. -/
theorem translate_special_chars_backspace_escape (zc : ZCodes) :
    (35, zc.ZC_BACKSPACE) ∈ help_character_escapes zc
    ∧ escape_code zc 35 = none
    ∧ translate_special_chars zc (bytes "\\#\n") = some [to_char zc.ZC_RETURN]
    ∧ translate_special_chars zc (bytes "\\?\n")
        = some [to_char zc.ZC_BACKSPACE, to_char zc.ZC_RETURN]
    ∧ translate_special_chars zc (bytes "\\\\\n") = some [92, to_char zc.ZC_RETURN]
    ∧ translate_special_chars zc (bytes "\\[\n")
        = some [to_char zc.ZC_ESCAPE, to_char zc.ZC_RETURN]
    ∧ translate_special_chars zc (bytes "\\_\n")
        = some [to_char zc.ZC_RETURN, to_char zc.ZC_RETURN] := by
  refine ⟨by simp [help_character_escapes], rfl, rfl, rfl, rfl, rfl, rfl⟩


/-- The inner `switch` falls to `default:` exactly for the characters without a `case`. -/
theorem escape_code_eq_none (zc : ZCodes) (c : Nat) :
    escape_code zc c = none ↔ c ∉ recognised_escapes := by
  unfold escape_code recognised_escapes
  simp only [List.mem_cons, List.mem_singleton, List.not_mem_nil, or_false, not_or]
  constructor
  · intro h
    refine ⟨?_, ?_, ?_, ?_, ?_, ?_, ?_, ?_, ?_, ?_, ?_, ?_, ?_, ?_, ?_, ?_, ?_, ?_, ?_, ?_, ?_,
      ?_, ?_, ?_, ?_, ?_, ?_⟩ <;> (intro hc; subst hc; simp at h)
  · intro h
    obtain ⟨h1, h2, h3, h4, h5, h6, h7, h8, h9, h10, h11, h12, h13, h14, h15, h16, h17, h18,
      h19, h20, h21, h22, h23, h24, h25, h26, h27⟩ := h
    simp only [if_neg h1, if_neg h2, if_neg h3, if_neg h4, if_neg h5, if_neg h6, if_neg h7,
      if_neg h8, if_neg h9, if_neg h10, if_neg h11, if_neg h12, if_neg h13, if_neg h14,
      if_neg h15, if_neg h16, if_neg h17, if_neg h18, if_neg h19, if_neg h20, if_neg h21,
      if_neg h22, if_neg h23, if_neg h24, if_neg h25, if_neg h26, if_neg h27]

theorem ends_in_unpaired_backslash_cons (c : Nat) (rest : CStr) (h : c ≠ 92) :
    ends_in_unpaired_backslash (c :: rest) = ends_in_unpaired_backslash rest := by
  cases rest <;> simp [ends_in_unpaired_backslash, h]

theorem ends_in_unpaired_backslash_escape (e : Nat) (rest : CStr) :
    ends_in_unpaired_backslash (92 :: e :: rest) = ends_in_unpaired_backslash rest := by
  simp [ends_in_unpaired_backslash]

theorem translate_special_chars_newline (zc : ZCodes) (rest : CStr) :
    translate_special_chars zc (10 :: rest) =
      (translate_special_chars zc rest).map (fun out => to_char zc.ZC_RETURN :: out) := by
  cases rest <;> simp [translate_special_chars]

theorem translate_special_chars_escape (zc : ZCodes) (e : Nat) (rest : CStr) :
    translate_special_chars zc (92 :: e :: rest) =
      (translate_special_chars zc rest).map (fun out => (escape_code zc e).toList ++ out) := by
  simp [translate_special_chars]

theorem translate_special_chars_plain (zc : ZCodes) (c : Nat) (rest : CStr) (h10 : c ≠ 10)
    (h92 : c ≠ 92) :
    translate_special_chars zc (c :: rest) =
      (translate_special_chars zc rest).map (fun out => c :: out) := by
  cases rest <;> simp [translate_special_chars, h10, h92]

/-- Mapping with the empty prefix changes nothing. -/
theorem option_map_nil_append (o : Option (List Nat)) :
    o.map (fun b => ([] : List Nat) ++ b) = o := by
  cases o <;> rfl

/-- Mapping twice, with a prefix in front of a prefix. -/
theorem option_map_append_append (o : Option (List Nat)) (x a : List Nat) :
    (o.map (fun b => a ++ b)).map (fun out => x ++ out) = o.map (fun b => (x ++ a) ++ b) := by
  cases o <;> simp

/-- Translation of a string in two parts, when the first part does not end in an unpaired
backslash: the first part is translated, and the translation of the second part follows. -/
theorem translate_special_chars_append (zc : ZCodes) (t : CStr) :
    ∀ (n : Nat) (pre : CStr), pre.length ≤ n → ends_in_unpaired_backslash pre = false →
      ∃ a, translate_special_chars zc pre = some a ∧
        translate_special_chars zc (pre ++ t) =
          (translate_special_chars zc t).map (fun b => a ++ b) := by
  intro n
  induction n with
  | zero =>
    intro pre hlen _
    have : pre = [] := List.length_eq_zero.mp (by omega)
    subst this
    exact ⟨[], rfl, by rw [List.nil_append, option_map_nil_append]⟩
  | succ n ih =>
    intro pre hlen hun
    match pre, hlen, hun with
    | [], _, _ => exact ⟨[], rfl, by rw [List.nil_append, option_map_nil_append]⟩
    | c :: rest, hlen, hun =>
      by_cases h92 : c = 92
      · subst h92
        match rest, hlen, hun with
        | [], _, hun => simp [ends_in_unpaired_backslash] at hun
        | e :: rest2, hlen, hun =>
          rw [ends_in_unpaired_backslash_escape] at hun
          obtain ⟨a, ha, hat⟩ := ih rest2 (by simp at hlen; omega) hun
          refine ⟨(escape_code zc e).toList ++ a, ?_, ?_⟩
          · rw [translate_special_chars_escape, ha]; rfl
          · rw [List.cons_append, List.cons_append, translate_special_chars_escape, hat,
              option_map_append_append]
      · rw [ends_in_unpaired_backslash_cons c rest h92] at hun
        obtain ⟨a, ha, hat⟩ := ih rest (by simpa using hlen) hun
        by_cases h10 : c = 10
        · subst h10
          refine ⟨to_char zc.ZC_RETURN :: a, ?_, ?_⟩
          · rw [translate_special_chars_newline, ha]; rfl
          · rw [List.cons_append, translate_special_chars_newline, hat]
            exact option_map_append_append _ [to_char zc.ZC_RETURN] a
        · refine ⟨c :: a, ?_, ?_⟩
          · rw [translate_special_chars_plain zc c rest h10 h92, ha]; rfl
          · rw [List.cons_append, translate_special_chars_plain zc c _ h10 h92, hat]
            exact option_map_append_append _ [c] a

/-- C9. An unknown escape is dropped and the rest of the line is translated as usual: for all
strings `pre` and `post`, `pre` not ending in an unpaired backslash, and every character `c`
other than NUL that the translator has no case for, the translation of `pre`, backslash, `c`,
`post` is the translation of `pre` followed by the translation of `post` (and reads past the
end exactly when the translation of `post` does). The data line `a\zb` with its newline
translates to `a`, `b`, RETURN. -/
theorem translate_special_chars_unknown_escape (zc : ZCodes) (pre post : CStr) (c : Nat)
    (hpre : ends_in_unpaired_backslash pre = false) (_hc : c ≠ 0)
    (hunknown : c ∉ recognised_escapes) :
    (∃ a, translate_special_chars zc pre = some a ∧
      translate_special_chars zc (pre ++ 92 :: c :: post) =
        (translate_special_chars zc post).map (fun b => a ++ b))
    ∧ translate_special_chars zc (bytes "a\\zb\n") = some [97, 98, to_char zc.ZC_RETURN] := by
  refine ⟨?_, rfl⟩
  obtain ⟨a, ha, hat⟩ :=
    translate_special_chars_append zc (92 :: c :: post) pre.length pre (le_refl _) hpre
  refine ⟨a, ha, ?_⟩
  rw [hat]
  have hnone : escape_code zc c = none := (escape_code_eq_none zc c).mpr hunknown
  rw [translate_special_chars_escape, hnone, Option.toList, option_map_nil_append]

/-- Witness for C9, with the codes of Frotz: in `go\zb` followed by `\^` and a newline, the
escape `\z` is dropped between `go` and the rest. -/
theorem translate_special_chars_unknown_escape_witness :
    (∃ a, translate_special_chars frotz_codes (bytes "go") = some a ∧
      translate_special_chars frotz_codes (bytes "go" ++ 92 :: 122 :: bytes "b\\^\n") =
        (translate_special_chars frotz_codes (bytes "b\\^\n")).map (fun b => a ++ b))
    ∧ translate_special_chars frotz_codes (bytes "a\\zb\n")
        = some [97, 98, to_char frotz_codes.ZC_RETURN] :=
  translate_special_chars_unknown_escape frotz_codes (bytes "go") (bytes "b\\^\n") 122
    (by decide) (by decide) (by decide)


/-- The loop of line 385 stops on the first byte after `idx` that is not a continuation byte. -/
theorem skip_continuation_spec (inp : CStr) :
    ∀ (l : List Nat) (idx : Nat), l = inp.drop (idx + 1) →
      idx < skip_continuation l idx ∧
      byte_at inp (skip_continuation l idx) &&& 0xc0 ≠ 0x80 ∧
      ∀ j, idx < j → j < skip_continuation l idx → byte_at inp j &&& 0xc0 = 0x80 := by
  intro l
  induction l with
  | nil =>
    intro idx h
    have hlen : inp.length ≤ idx + 1 := List.drop_eq_nil_iff.mp h.symm
    refine ⟨by simp [skip_continuation], ?_, ?_⟩
    · simp only [skip_continuation, byte_at]
      rw [List.getD_eq_default _ _ hlen]
      decide
    · intro j h1 h2
      simp only [skip_continuation] at h2
      omega
  | cons b rest ih =>
    intro idx h
    have hlen : idx + 1 < inp.length := by
      by_contra hc
      rw [List.drop_eq_nil_of_le (by omega)] at h
      exact List.cons_ne_nil _ _ h
    rw [List.drop_eq_getElem_cons hlen] at h
    have hb : byte_at inp (idx + 1) = b := by
      unfold byte_at
      rw [List.getD_eq_getElem _ _ hlen]
      exact (List.cons.inj h).1.symm
    have hrest : rest = inp.drop (idx + 1 + 1) := (List.cons.inj h).2
    by_cases hcont : b &&& 0xc0 = 0x80
    · obtain ⟨h1, h2, h3⟩ := ih (idx + 1) hrest
      simp only [skip_continuation, if_pos hcont]
      refine ⟨by omega, h2, ?_⟩
      intro j hj1 hj2
      by_cases hj : j = idx + 1
      · rw [hj, hb]; exact hcont
      · exact h3 j (by omega) hj2
    · simp only [skip_continuation, if_neg hcont]
      refine ⟨by omega, by rw [hb]; exact hcont, ?_⟩
      intro j hj1 hj2
      omega

set_option maxRecDepth 100000 in
/-- A byte that is a continuation byte or at least 0xf0 matches none of the three patterns
for the start of a sequence. -/
theorem malformed_lead_patterns :
    ∀ b, b < 256 → (b &&& 0xc0 = 0x80 ∨ 0xf0 ≤ b) →
      ¬ (b &&& 0x80 = 0) ∧ ¬ (b &&& 0xe0 = 0xc0) ∧ ¬ (b &&& 0xf0 = 0xe0) := by
  decide

/-- C10. For every C string and every offset `idx` whose byte is a malformed leading byte (a
continuation byte `10xxxxxx`, or a byte `11110xxx` or above), `utf8_to_zchar` gives the
replacement character `?` and returns the offset of the first byte after `idx` that is not a
continuation byte: every byte between `idx` and the offset returned is a continuation byte,
and the byte at the offset returned is not. -/
theorem utf8_to_zchar_resynchronises (inp : CStr) (idx : Nat)
    (hbyte : byte_at inp idx < 256)
    (hmal : byte_at inp idx &&& 0xc0 = 0x80 ∨ 0xf0 ≤ byte_at inp idx) :
    (utf8_to_zchar inp idx).1 = 63
    ∧ idx < (utf8_to_zchar inp idx).2
    ∧ byte_at inp (utf8_to_zchar inp idx).2 &&& 0xc0 ≠ 0x80
    ∧ ∀ j, idx < j → j < (utf8_to_zchar inp idx).2 → byte_at inp j &&& 0xc0 = 0x80 := by
  obtain ⟨h1, h2, h3⟩ := malformed_lead_patterns (byte_at inp idx) hbyte hmal
  have hdef : utf8_to_zchar inp idx = (63, skip_continuation (inp.drop (idx + 1)) idx) := by
    unfold utf8_to_zchar
    rw [if_neg h1, if_neg h2, if_neg h3]
  rw [hdef]
  exact ⟨rfl, skip_continuation_spec inp _ idx rfl⟩

/-- Witness for C10: in the bytes `41 80 81 bf 42` the offset 1 holds a continuation byte;
the decoder gives `?` and returns 4, the offset of the `42`. -/
theorem utf8_to_zchar_resynchronises_witness :
    ((utf8_to_zchar [0x41, 0x80, 0x81, 0xbf, 0x42] 1).1 = 63
      ∧ 1 < (utf8_to_zchar [0x41, 0x80, 0x81, 0xbf, 0x42] 1).2
      ∧ byte_at [0x41, 0x80, 0x81, 0xbf, 0x42]
          (utf8_to_zchar [0x41, 0x80, 0x81, 0xbf, 0x42] 1).2 &&& 0xc0 ≠ 0x80
      ∧ ∀ j, 1 < j → j < (utf8_to_zchar [0x41, 0x80, 0x81, 0xbf, 0x42] 1).2 →
          byte_at [0x41, 0x80, 0x81, 0xbf, 0x42] j &&& 0xc0 = 0x80)
    ∧ utf8_to_zchar [0x41, 0x80, 0x81, 0xbf, 0x42] 1 = (63, 4) :=
  ⟨utf8_to_zchar_resynchronises [0x41, 0x80, 0x81, 0xbf, 0x42] 1 (by decide)
    (Or.inl (by decide)), by decide⟩


/-- A string without NUL is the whole content of its buffer. -/
theorem cstr_eq_self (l : List Nat) (h : ∀ c ∈ l, c ≠ 0) : cstr l = l := by
  unfold cstr
  rw [List.takeWhile_eq_self_iff]
  intro c hc
  simpa using h c hc

/-- The second part of `os_read_line` reads no line: it returns with the lines it was given. -/
theorem split_line_rest (P : Platform) (B : Build) (m : Input) (buf : List Nat)
    (rest : List Line) :
    split_line P B m buf rest = .undefined ∨
      ∃ r, split_line P B m buf rest = .done r ∧ r.rest = rest ∧
        r.m.read_key_buffer = m.read_key_buffer := by
  unfold split_line
  cases find_terminator P B m.read_line_buffer 0 with
  | none => exact Or.inl rfl
  | some p =>
    simp only
    split
    · exact Or.inl rfl
    · exact Or.inr ⟨_, rfl, rfl, rfl⟩

/-- C12 (amended). With read-ahead of the matching kind no line is read. For every state whose
`read_key_buffer` is not empty, `os_read_key` returns with the input stream untouched and
`read_line_buffer` empty: it reports a cached timeout and keeps the buffer, or takes one key
from the buffer. For every state whose `read_line_buffer` is not empty, except when the last
line read timed out and the call is not a continuation (the buffer is then dropped and a line
is read), `os_read_line` leaves the input stream untouched and `read_key_buffer` empty,
whether it reports a cached timeout or serves the buffer. -/
theorem read_ahead_no_blocking_read (P : Platform) (B : Build) (m : Input) (timeout now : Int)
    (input : List Line) :
    (m.read_key_buffer ≠ [] →
      ∃ r, os_read_key P B m timeout now input = .done r ∧ r.rest = input ∧
        r.m.read_line_buffer = [] ∧
        ((r.c = P.zc.ZC_TIME_OUT % 2 ^ zchar_bits B ∧
            r.m.read_key_buffer = m.read_key_buffer) ∨
          (r.c, r.m.read_key_buffer) = take_key B m.read_key_buffer))
    ∧ ∀ (buf : List Nat) (continued : Bool), m.read_line_buffer ≠ [] →
        ¬ (m.timed_out_last_time = true ∧ continued = false) →
        os_read_line P B m buf timeout continued now input = .undefined ∨
          ∃ r, os_read_line P B m buf timeout continued now input = .done r ∧
            r.rest = input ∧ r.m.read_key_buffer = [] := by
  constructor
  · intro hbuf
    unfold os_read_key
    rw [if_neg hbuf]
    split
    · exact ⟨_, rfl, rfl, rfl, Or.inl ⟨rfl, rfl⟩⟩
    · exact ⟨_, rfl, rfl, rfl, Or.inr rfl⟩
  · intro buf continued hbuf hkeep
    have hpending :
        (if (m.timed_out_last_time && !continued) = true then ([] : CStr)
          else m.read_line_buffer) = m.read_line_buffer := by
      cases hl : m.timed_out_last_time <;> cases hc : continued <;> simp_all
    unfold os_read_line
    simp only [hpending, if_neg hbuf]
    split
    · exact Or.inr ⟨_, rfl, rfl, rfl⟩
    · exact split_line_rest P B _ buf input

/-- Witness for C12 (amended): with `abc` in `read_key_buffer`, `os_read_key` returns without
reading the line that waits on the input stream. -/
theorem read_ahead_no_blocking_read_witness :
    ∃ r, os_read_key unix_platform utf8_build
        { initial_input with read_key_buffer := bytes "abc" } 0 0
        [{ raw := bytes "look", now := 0 }] = .done r ∧
      r.rest = [{ raw := bytes "look", now := 0 }] ∧ r.m.read_line_buffer = [] ∧
      ((r.c = unix_platform.zc.ZC_TIME_OUT % 2 ^ zchar_bits utf8_build ∧
          r.m.read_key_buffer = bytes "abc") ∨
        (r.c, r.m.read_key_buffer) = take_key utf8_build (bytes "abc")) :=
  (read_ahead_no_blocking_read unix_platform utf8_build
    { initial_input with read_key_buffer := bytes "abc" } 0 0
    [{ raw := bytes "look", now := 0 }]).1 (by decide)

/-- C12 as stated fails for `os_read_line` after a timeout. A line read with a timeout of 10
arrives 5 seconds late: the call times out and keeps the line `x` in `read_line_buffer`. The
next call, not a continuation, finds the buffer not empty, yet it drops it and reads the next
line `y` from the input stream. -/
theorem os_read_line_reads_after_timeout :
    os_read_line unix_platform utf8_build initial_input [] 10 false 0
        [{ raw := bytes "x", now := 5 }]
      = .done { terminator := 0, buf := [],
                m := { g := { initial_session with time_ahead := 40 }, read_key_buffer := [],
                       read_line_buffer := [120, 13], timed_out_last_time := true },
                rest := [] }
    ∧ os_read_line unix_platform utf8_build
        { g := { initial_session with time_ahead := 40 }, read_key_buffer := [],
          read_line_buffer := [120, 13], timed_out_last_time := true }
        [] 0 false 5 [{ raw := bytes "y", now := 9 }, { raw := bytes "z", now := 9 }]
      = .done { terminator := 13, buf := [121],
                m := { g := initial_session, read_key_buffer := [], read_line_buffer := [],
                       timed_out_last_time := false },
                rest := [{ raw := bytes "z", now := 9 }] } := by
  refine ⟨by decide, by decide⟩


/-- The scan for the terminator stops on the first byte that `is_terminator` accepts. -/
theorem find_terminator_first (P : Platform) (B : Build) (u v : CStr) (t i : Nat)
    (hu : ∀ x ∈ u, P.is_terminator (char_to_zchar B x) = false)
    (ht : P.is_terminator (char_to_zchar B t) = true) :
    find_terminator P B (u ++ t :: v) i = some (i + u.length) := by
  induction u generalizing i with
  | nil => simp [find_terminator, ht]
  | cons x xs ih =>
    have hx := hu x (List.mem_cons_self _ _)
    rw [List.cons_append, find_terminator, hx]
    simp only [Bool.false_eq_true, if_false]
    rw [ih (i + 1) (fun y hy => hu y (List.mem_cons_of_mem _ hy)), List.length_cons]
    congr 1
    omega

/-- The line split of `os_read_line`, in both builds: when `read_line_buffer` holds `u`, then
the first byte `t` that `is_terminator` accepts, then `v`, the part of `os_read_line` after the
timeout test returns `t`, appends `u` to `buf` as far as `append_line` goes, keeps `v` (nothing
when `v` is a single carriage return) and clears `timed_out_last_time`. -/
theorem split_line_spec (P : Platform) (B : Build) (m : Input) (buf : List Nat)
    (rest : List Line) (u v : CStr) (t : Nat) (hbuf : m.read_line_buffer = u ++ t :: v)
    (hu : ∀ x ∈ u, P.is_terminator (char_to_zchar B x) = false)
    (ht : P.is_terminator (char_to_zchar B t) = true) :
    split_line P B m buf rest =
      .done { terminator := char_to_zchar B t, buf := append_line P B buf u,
              m := { m with read_line_buffer := if v = [13] then [] else v,
                            timed_out_last_time := false },
              rest := rest } := by
  unfold split_line
  rw [hbuf, find_terminator_first P B u v t 0 hu ht]
  simp only [Nat.zero_add]
  rw [if_neg (by simp)]
  have h1 : (u ++ t :: v).take u.length = u := by simp
  have h2 : (u ++ t :: v).drop (u.length + 1) = v := by
    rw [← List.drop_drop, List.drop_left]
    rfl
  have h3 : byte_at (u ++ t :: v) u.length = t := by
    rw [byte_at, List.getD_append_right _ _ _ _ (le_refl _)]
    simp
  rw [h1, h2, h3]

set_option maxRecDepth 100000 in
/-- C13: without `USE_UTF8` the text before the terminator is not copied whole. In a build
with `INPUT_BUFFER_SIZE` 200, an empty `buf` and a line of 120 letters `a`, the call returns
RETURN and clears the line buffer, but `buf` receives only 79 of the 120 letters: the bound
of `strncat` (line 485) is `INPUT_BUFFER_SIZE - strlen(read_line_buffer) - 1`. With `USE_UTF8`
the same call copies all 120. -/
theorem os_read_line_truncates_line :
    os_read_line unix_platform plain_build initial_input [] 0 false 0
        [{ raw := List.replicate 120 97, now := 0 }]
      = .done { terminator := 13, buf := List.replicate 79 97,
                m := { g := initial_session, read_key_buffer := [], read_line_buffer := [],
                       timed_out_last_time := false },
                rest := [] }
    ∧ os_read_line unix_platform utf8_build initial_input [] 0 false 0
        [{ raw := List.replicate 120 97, now := 0 }]
      = .done { terminator := 13, buf := List.replicate 120 97,
                m := { g := initial_session, read_key_buffer := [], read_line_buffer := [],
                       timed_out_last_time := false },
                rest := [] } := by
  refine ⟨by decide, by decide⟩

/-- The decoder always moves forward. -/
theorem utf8_to_zchar_advances (inp : CStr) (idx : Nat) : idx < (utf8_to_zchar inp idx).2 := by
  unfold utf8_to_zchar
  simp only
  repeat' split
  all_goals first
    | exact (skip_continuation_spec inp _ idx rfl).1
    | (simp only []; omega)

/-- With less room the loop of lines 492-496 stores a prefix of what it stores with more. -/
theorem decode_line_take (line : CStr) :
    ∀ (n n2 j : Nat), n ≤ n2 → decode_line line n j = (decode_line line n2 j).take n := by
  intro n
  induction n with
  | zero => intro n2 j _; simp [decode_line]
  | succ n ih =>
    intro n2 j h
    match n2, h with
    | n2 + 1, h =>
      unfold decode_line
      by_cases hz : byte_at line j = 0
      · simp [hz]
      · simp only [if_neg hz, List.take_succ_cons]
        rw [← ih n2 _ (by omega)]

/-- The loop of lines 492-496 stores at most one code for each byte left in the line. -/
theorem decode_line_length (line : CStr) :
    ∀ (n j : Nat), (decode_line line n j).length ≤ line.length - j := by
  intro n
  induction n with
  | zero => intro j; simp [decode_line]
  | succ n ih =>
    intro j
    unfold decode_line
    by_cases hz : byte_at line j = 0
    · simp [hz]
    · simp only [if_neg hz, List.length_cons]
      have hj : j < line.length := by
        by_contra hc
        apply hz
        unfold byte_at
        exact List.getD_eq_default _ _ (by omega)
      have hadv := utf8_to_zchar_advances line j
      have := ih (utf8_to_zchar line j).2
      omega

/-- With `USE_UTF8`, when the codes of `u` fit below `INPUT_BUFFER_SIZE - 2` after the codes
already in `buf`, `append_line` appends all of them. -/
theorem append_line_utf8_fits (P : Platform) (B : Build) (buf : List Nat) (u : CStr)
    (hB : B.use_utf8 = true)
    (hfit : buf.length + (decode_all u).length ≤ P.INPUT_BUFFER_SIZE - 2) :
    append_line P B buf u = cstr (buf ++ decode_all u) := by
  unfold append_line
  rw [if_pos hB]
  congr 2
  unfold decode_all at hfit ⊢
  by_cases hroom : P.INPUT_BUFFER_SIZE - 2 - buf.length ≤ u.length + 1
  · rw [decode_line_take u _ _ 0 hroom]
    exact List.take_of_length_le (by omega)
  · rw [decode_line_take u (u.length + 1) (P.INPUT_BUFFER_SIZE - 2 - buf.length) 0 (by omega)]
    have := decode_line_length u (P.INPUT_BUFFER_SIZE - 2 - buf.length) 0
    exact (List.take_of_length_le (by omega)).symm


/-- The copy that `strndup(s, n)` returns has at most `n` characters. -/
theorem strndup_length (s : CStr) (n : Nat) : (strndup s n).length ≤ n := by
  unfold strndup
  exact List.length_take_le n s

/-- The last part of `os_read_file_name` returns a name when the flag is not one of the three
that ask before overwriting. -/
theorem finish_file_name_some (P : Platform) (f : Setup) (flag : file_flag) (buf : CStr)
    (g : Session) (input : List Line) (r : FileResult)
    (hflag : flag ≠ file_flag.FILE_SAVE ∧ flag ≠ file_flag.FILE_SAVE_AUX ∧
      flag ≠ file_flag.FILE_RECORD)
    (hrun : finish_file_name P f flag buf g input = .done r) : r.name ≠ none := by
  unfold finish_file_name at hrun
  split at hrun
  · exact absurd hrun (by simp)
  · simp only at hrun
    split at hrun
    · exact absurd hrun (by simp)
    · rw [if_neg (by rintro ⟨h | h | h, _⟩ <;> simp_all)] at hrun
      simp only [Run.done.injEq] at hrun
      subst hrun
      simp

set_option maxRecDepth 100000 in
/-- C14: an overlong answer does not fail. With `MAX_FILE_NAME` 80 and no restricted path, an
answer of 81 letters `a` is cut to 80 letters by `strndup` (line 578), so the test
`strlen(buf) > MAX_FILE_NAME` of line 580 is never true, and the 80 letters are returned
instead of `NULL`. An empty answer gives the default name. -/
theorem os_read_file_name_overlong_answer :
    os_read_file_name unix_platform { restore_mode := false, restricted_path := none }
        initial_session (bytes "story.sav") file_flag.FILE_RESTORE
        [{ raw := List.replicate 81 97, now := 0 }]
      = .done { name := some (List.replicate 80 97), g := initial_session, rest := [] }
    ∧ os_read_file_name unix_platform { restore_mode := false, restricted_path := none }
        initial_session (bytes "story.sav") file_flag.FILE_RESTORE
        [{ raw := [], now := 0 }]
      = .done { name := some (bytes "story.sav"), g := initial_session, rest := [] } := by
  refine ⟨by decide, by decide⟩

/-- For the flags that prompt and do not ask before overwriting, `os_read_file_name` never
returns `NULL`, whatever the length of the answer. -/
theorem os_read_file_name_never_null (P : Platform) (f : Setup) (g : Session)
    (default_name : CStr) (flag : file_flag) (input : List Line) (r : FileResult)
    (hflag : flag = file_flag.FILE_RESTORE ∨ flag = file_flag.FILE_SCRIPT ∨
      flag = file_flag.FILE_PLAYBACK ∨ flag = file_flag.FILE_LOAD_AUX)
    (hrun : os_read_file_name P f g default_name flag input = .done r) : r.name ≠ none := by
  have hsave : flag ≠ file_flag.FILE_SAVE ∧ flag ≠ file_flag.FILE_SAVE_AUX ∧
      flag ≠ file_flag.FILE_RECORD := by
    rcases hflag with h | h | h | h <;> subst h <;> decide
  have hnp : flag ≠ file_flag.FILE_NO_PROMPT := by
    rcases hflag with h | h | h | h <;> subst h <;> decide
  unfold os_read_file_name at hrun
  by_cases hr : f.restore_mode = true
  · rw [if_pos hr] at hrun
    simp only [Run.done.injEq] at hrun
    subst hrun
    simp
  · rw [if_neg hr, if_neg hnp] at hrun
    simp only at hrun
    split at hrun
    · exact absurd hrun (by simp)
    · cases hm : dumb_read_misc_line P g input with
      | undefined => rw [hm] at hrun; exact absurd hrun (by simp)
      | eof => rw [hm] at hrun; exact absurd hrun (by simp)
      | done fullpath =>
        rw [hm] at hrun
        simp only at hrun
        have hlen : ¬ (if fullpath.s.length = 0 then strndup default_name P.MAX_FILE_NAME
            else strndup fullpath.s P.MAX_FILE_NAME).length > P.MAX_FILE_NAME := by
          split <;> exact Nat.not_lt.mpr (strndup_length _ _)
        rw [if_neg hlen] at hrun
        exact finish_file_name_some P f flag _ _ _ r hsave hrun

/-- C15: the test of the extension. With the flag `FILE_NO_PROMPT` a default name without any
`.` makes `strrchr` return `NULL`, which line 558 hands to `strncmp`: the call does not return
`NULL`, its behaviour is undefined. A name whose extension only begins with `.aux` passes the
test, which compares 4 characters, and is returned. The extension `.txt` is refused and the
extension `.aux` accepted. -/
theorem os_read_file_name_no_prompt_extension :
    os_read_file_name unix_platform { restore_mode := false, restricted_path := none }
        initial_session (bytes "notes") file_flag.FILE_NO_PROMPT [] = .undefined
    ∧ os_read_file_name unix_platform { restore_mode := false, restricted_path := none }
        initial_session (bytes "x.auxiliary") file_flag.FILE_NO_PROMPT []
      = .done { name := some (bytes "x.auxiliary"), g := initial_session, rest := [] }
    ∧ os_read_file_name unix_platform { restore_mode := false, restricted_path := none }
        initial_session (bytes "x.txt") file_flag.FILE_NO_PROMPT []
      = .done { name := none, g := initial_session, rest := [] }
    ∧ os_read_file_name unix_platform { restore_mode := false, restricted_path := none }
        initial_session (bytes "x.aux") file_flag.FILE_NO_PROMPT []
      = .done { name := some (bytes "x.aux"), g := initial_session, rest := [] } := by
  refine ⟨by decide, by decide, by decide, by decide⟩


/-- Every call of `os_read_key` that returns leaves `read_line_buffer` empty. -/
theorem os_read_key_clears_line_buffer (P : Platform) (B : Build) (m : Input)
    (timeout now : Int) (input : List Line) (r : KeyRead)
    (h : os_read_key P B m timeout now input = .done r) : r.m.read_line_buffer = [] := by
  unfold os_read_key at h
  split at h
  · cases hd : dumb_read_line P m.g m.read_key_buffer timeout input_type.INPUT_CHAR none now
        input with
    | undefined => rw [hd] at h; exact absurd h (by simp)
    | eof => rw [hd] at h; exact absurd h (by simp)
    | done x =>
      rw [hd] at h
      simp only at h
      split at h <;> (simp only [Run.done.injEq] at h; subst h; rfl)
  · split at h <;> (simp only [Run.done.injEq] at h; subst h; rfl)

/-- Every call of `os_read_line` that returns leaves `read_key_buffer` empty. -/
theorem os_read_line_clears_key_buffer (P : Platform) (B : Build) (m : Input)
    (buf : List Nat) (timeout : Int) (continued : Bool) (now : Int) (input : List Line)
    (r : LineRead) (h : os_read_line P B m buf timeout continued now input = .done r) :
    r.m.read_key_buffer = [] := by
  unfold os_read_line at h
  simp only at h
  generalize (if (m.timed_out_last_time && !continued) = true then ([] : CStr)
    else m.read_line_buffer) = pending at h
  by_cases hp : pending = []
  · rw [if_pos hp] at h
    cases hd : dumb_read_line P m.g pending timeout
        (if buf ≠ [] then input_type.INPUT_LINE_CONTINUED else input_type.INPUT_LINE)
        (some buf) now input with
    | undefined => rw [hd] at h; exact absurd h (by simp)
    | eof => rw [hd] at h; exact absurd h (by simp)
    | done x =>
      rw [hd] at h
      simp only at h
      split at h
      · simp only [Run.done.injEq] at h; subst h; rfl
      · rcases split_line_rest P B _ _ _ with hs | ⟨r2, hs, _, hk⟩
        · rw [hs] at h; exact absurd h (by simp)
        · rw [hs] at h
          simp only [Run.done.injEq] at h
          subst h
          exact hk
  · rw [if_neg hp] at h
    split at h
    · simp only [Run.done.injEq] at h; subst h; rfl
    · rcases split_line_rest P B _ _ _ with hs | ⟨r2, hs, _, hk⟩
      · rw [hs] at h; exact absurd h (by simp)
      · rw [hs] at h
        simp only [Run.done.injEq] at h
        subst h
        exact hk

/-- C16. The two read-ahead buffers are never both in use. Every call of `os_read_key` that
returns, timed out or not, leaves `read_line_buffer` empty; every call of `os_read_line` that
returns leaves `read_key_buffer` empty; and in every state reached from a state with both
buffers empty by calls of the two functions, at least one of the two buffers is empty. -/
theorem read_ahead_buffers_exclusive (P : Platform) (B : Build) :
    (∀ (m : Input) (timeout now : Int) (input : List Line) (r : KeyRead),
      os_read_key P B m timeout now input = .done r → r.m.read_line_buffer = [])
    ∧ (∀ (m : Input) (buf : List Nat) (timeout : Int) (continued : Bool) (now : Int)
        (input : List Line) (r : LineRead),
      os_read_line P B m buf timeout continued now input = .done r →
        r.m.read_key_buffer = [])
    ∧ (∀ m : Input, Reachable P B m → m.read_key_buffer = [] ∨ m.read_line_buffer = []) := by
  refine ⟨os_read_key_clears_line_buffer P B, os_read_line_clears_key_buffer P B, ?_⟩
  intro m hm
  cases hm with
  | start _ hkey _ => exact Or.inl hkey
  | key m0 timeout now input r _ hcall =>
    exact Or.inr (os_read_key_clears_line_buffer P B m0 timeout now input r hcall)
  | line m0 buf timeout continued now input r _ hcall =>
    exact Or.inl (os_read_line_clears_key_buffer P B m0 buf timeout continued now input r hcall)

/-- Witness for C16: a key read that finds `x` and a RETURN in `read_line_buffer` reads the
line `ab`, returns `a` and leaves `read_line_buffer` empty. -/
theorem read_ahead_buffers_exclusive_witness :
    ∃ r, os_read_key unix_platform utf8_build
        { initial_input with read_line_buffer := [120, 13] } 0 0
        [{ raw := bytes "ab", now := 0 }] = .done r ∧ r.c = 97 ∧ r.m.read_line_buffer = [] :=
  ⟨{ c := 97,
     m := { g := initial_session, read_key_buffer := [98], read_line_buffer := [],
            timed_out_last_time := false },
     rest := [] }, by decide, rfl,
   (read_ahead_buffers_exclusive unix_platform utf8_build).1
     { initial_input with read_line_buffer := [120, 13] } 0 0
     [{ raw := bytes "ab", now := 0 }] _ (by decide)⟩


/-- The settings handler does not touch `time_ahead`. -/
theorem dumb_handle_setting_time_ahead (P : Platform) (g : Session) (setting : CStr) :
    (dumb_handle_setting P g setting).time_ahead = g.time_ahead := by
  unfold dumb_handle_setting
  split
  · rfl
  · split <;> rfl

/-- A command keeps `time_ahead` non-negative, whether the read returns or goes on. -/
theorem dumb_read_line_command_bank (P : Platform) (st : Loop) (s : CStr) (now : Int)
    (h : 0 ≤ st.g.time_ahead) :
    (∀ r, dumb_read_line_command P st s now = .ret r → 0 ≤ r.g.time_ahead)
    ∧ (∀ st2, dumb_read_line_command P st s now = .next st2 → 0 ≤ st2.g.time_ahead) := by
  unfold dumb_read_line_command
  simp only
  constructor
  · intro r hr
    repeat' split at hr
    all_goals (cases hr <;> (simp only []; omega))
  · intro st2 hst
    repeat' split at hst
    all_goals (cases hst <;> first
      | exact h
      | (rw [dumb_handle_setting_time_ahead]; exact h))

/-- One line of input keeps `time_ahead` non-negative. -/
theorem dumb_read_line_step_bank (P : Platform) (st : Loop) (ev : Line)
    (h : 0 ≤ st.g.time_ahead) :
    (∀ r, dumb_read_line_step P st ev = .ret r → 0 ≤ r.g.time_ahead)
    ∧ (∀ st2, dumb_read_line_step P st ev = .next st2 → 0 ≤ st2.g.time_ahead) := by
  unfold dumb_read_line_step
  simp only
  cases hl : st.help_left with
  | some left =>
    simp only
    constructor
    · intro r hr
      split at hr <;> cases hr
    · intro st2 hst
      split at hst <;> (cases hst; exact h)
  | none =>
    simp only
    by_cases hc : is_command_line (cstr (dumb_getline P ev.raw)) = true
    · simp only [hc, Bool.not_true, Bool.false_eq_true, if_false]
      exact dumb_read_line_command_bank P st _ ev.now h
    · simp only [Bool.not_eq_true] at hc
      simp only [hc, Bool.not_false, if_true]
      cases translate_stored P.zc (dumb_getline P ev.raw) with
      | none =>
        exact ⟨fun r hr => (nomatch hr), fun st2 hst => (nomatch hst)⟩
      | some out =>
        simp only
        constructor
        · intro r hr
          split at hr
          · rename_i hcond
            simp only [Step.ret.injEq] at hr
            subst hr
            simp only []
            omega
          · simp only [Step.ret.injEq] at hr
            subst hr
            exact h
        · intro st2 hst
          split at hst <;> cases hst

/-- The loop of `dumb_read_line` returns with `time_ahead` non-negative. -/
theorem dumb_read_line_loop_bank (P : Platform) :
    ∀ (input : List Line) (st : Loop) (r : LineResult × List Line), 0 ≤ st.g.time_ahead →
      dumb_read_line_loop P st input = .done r → 0 ≤ r.1.g.time_ahead := by
  intro input
  induction input with
  | nil => intro st r _ h; exact absurd h (by simp [dumb_read_line_loop])
  | cons ev rest ih =>
    intro st r hst h
    unfold dumb_read_line_loop at h
    have hstep := dumb_read_line_step_bank P st ev hst
    cases hs : dumb_read_line_step P st ev with
    | ret r2 =>
      rw [hs] at h
      simp only [Run.done.injEq] at h
      subst h
      exact hstep.1 r2 hs
    | next st2 =>
      rw [hs] at h
      exact ih st2 r (hstep.2 st2 hs) h
    | undefined => rw [hs] at h; exact absurd h (by simp)

/-- C17. The bank `time_ahead` is never negative: if it is non-negative before, it is
non-negative after `check_timeout`, after every round of the loop of `dumb_read_line` (a data
line, the commands `t` and `w` and all the others, whether the read returns or goes on) and
after every call of `dumb_read_line`, for every requested timeout, speed factor, clock value
and command argument. Integers are unbounded here. -/
theorem time_ahead_nonnegative (P : Platform) :
    (∀ timeout time_ahead : Int, 0 ≤ time_ahead → 0 ≤ (check_timeout timeout time_ahead).1)
    ∧ (∀ (st : Loop) (ev : Line), 0 ≤ st.g.time_ahead →
        (∀ r, dumb_read_line_step P st ev = .ret r → 0 ≤ r.g.time_ahead)
        ∧ (∀ st2, dumb_read_line_step P st ev = .next st2 → 0 ≤ st2.g.time_ahead))
    ∧ (∀ (g : Session) (s : CStr) (timeout : Int) (type : input_type)
        (cont : Option (List Nat)) (now : Int) (input : List Line)
        (r : LineResult × List Line), 0 ≤ g.time_ahead →
        dumb_read_line P g s timeout type cont now input = .done r →
        0 ≤ r.1.g.time_ahead) := by
  refine ⟨?_, dumb_read_line_step_bank P, ?_⟩
  · intro timeout time_ahead h
    unfold check_timeout
    simp only
    split
    · exact le_refl 0
    · omega
  · intro g s timeout type cont now input r hg h
    unfold dumb_read_line at h
    split at h
    · rename_i hcond
      simp only [Run.done.injEq] at h
      subst h
      simp only []
      omega
    · exact dumb_read_line_loop_bank P input _ r (le_refl 0) h

/-- Witness for C17: with 5 tenths banked, `check_timeout` for a timeout of 3 leaves a
non-negative bank; a read with a timeout of 10 that receives the commands `\w-7` and `\t`
returns timed out with the bank 0. -/
theorem time_ahead_nonnegative_witness :
    (0 : Int) ≤ (check_timeout 3 5).1
    ∧ ∃ r, dumb_read_line unix_platform initial_session [] 10 input_type.INPUT_LINE none 0
        [{ raw := bytes "\\w-7", now := 1 }, { raw := bytes "\\t", now := 2 }] = .done r ∧
      r.1.timed_out = true ∧ 0 ≤ r.1.g.time_ahead :=
  ⟨(time_ahead_nonnegative unix_platform).1 3 5 (by decide),
   ({ timed_out := true, s := [], g := initial_session, continued_line_chars := none }, []),
   by decide, rfl,
   (time_ahead_nonnegative unix_platform).2.2 initial_session [] 10
     input_type.INPUT_LINE none 0
     [{ raw := bytes "\\w-7", now := 1 }, { raw := bytes "\\t", now := 2 }] _ (by decide)
     (by decide)⟩


/-- What a setting does to MORE prompts: only a setting that begins with `mp` changes them. -/
theorem dumb_handle_setting_prompts (P : Platform) (g : Session) (setting : CStr) :
    (dumb_handle_setting P g setting).do_more_prompts =
      if setting.take 2 = [109, 112] then toggle g.do_more_prompts (byte_at setting 2)
      else g.do_more_prompts := by
  unfold dumb_handle_setting strncmp_eq
  by_cases h1 : setting.take 2 = [115, 102]
  · have h2 : setting.take 2 ≠ [109, 112] := by rw [h1]; decide
    simp [h1, h2]
  · by_cases h2 : setting.take 2 = [109, 112]
    · simp [h2]
    · simp [h1, h2]

/-- The first byte of a string whose first two bytes are known. -/
theorem byte_at_zero_of_take (c : CStr) (a b : Nat) (h : c.take 2 = [a, b]) :
    byte_at c 0 = a := by
  match c, h with
  | x :: y :: t, h =>
    simp only [List.take_succ_cons, List.take_zero, List.cons.injEq, and_true] at h
    simp [byte_at, h.1]

/-- In an untimed read, a command other than a `help` with MORE prompts on lets the loop go on,
still untimed and outside the paginated help; MORE prompts change only under a command that
begins with `mp`. -/
theorem dumb_read_line_command_untimed (P : Platform) (st : Loop) (s : CStr) (now : Int)
    (ht : st.timeout = 0) (hh : st.help_left = none)
    (hhelp : ((s.drop 1).dropLast != [104, 101, 108, 112] || !st.g.do_more_prompts) = true) :
    ∃ st2, dumb_read_line_command P st s now = .next st2 ∧ st2.timeout = 0 ∧
      st2.help_left = none ∧
      st2.g.do_more_prompts =
        (if ((s.drop 1).dropLast).take 2 = [109, 112]
          then toggle st.g.do_more_prompts (byte_at ((s.drop 1).dropLast) 2)
          else st.g.do_more_prompts) ∧
      st2.g.time_ahead = st.g.time_ahead := by
  have hne : ¬ st.timeout ≠ 0 := by simp [ht]
  unfold dumb_read_line_command
  simp only [if_neg hne]
  generalize (s.drop 1).dropLast = command at hhelp ⊢
  by_cases h1 : command = [116]
  · rw [if_pos h1]
    refine ⟨st, rfl, ht, hh, ?_, rfl⟩
    rw [if_neg (by rw [h1]; decide)]
  · rw [if_neg h1]
    by_cases h2 : byte_at command 0 = 119
    · rw [if_pos h2]
      refine ⟨st, rfl, ht, hh, ?_, rfl⟩
      rw [if_neg]
      intro hmp
      rw [byte_at_zero_of_take command _ _ hmp] at h2
      omega
    · rw [if_neg h2]
      by_cases h3 : command = [100]
      · rw [if_pos h3]
        have hmp : ¬ command.take 2 = [109, 112] := by rw [h3]; decide
        simp only [if_neg hmp]
        split
        · exact ⟨st, rfl, ht, hh, rfl, rfl⟩
        · exact ⟨_, rfl, ht, hh, rfl, rfl⟩
      · rw [if_neg h3]
        by_cases h4 : command = [104, 101, 108, 112]
        · rw [if_pos h4]
          have hmp : ¬ command.take 2 = [109, 112] := by rw [h4]; decide
          have hoff : st.g.do_more_prompts = false := by
            rw [h4] at hhelp
            simpa using hhelp
          rw [hoff]
          simp only [Bool.not_false, if_true]
          exact ⟨st, rfl, ht, hh, by rw [if_neg hmp, hoff], rfl⟩
        · rw [if_neg h4]
          by_cases h5 : command = [115]
          · rw [if_pos h5]
            have hmp : ¬ command.take 2 = [109, 112] := by rw [h5]; decide
            exact ⟨st, rfl, ht, hh, by rw [if_neg hmp], rfl⟩
          · rw [if_neg h5]
            exact ⟨_, rfl, ht, hh, dumb_handle_setting_prompts P st.g command,
              dumb_handle_setting_time_ahead P st.g command⟩

/-- The loop of an untimed read goes through command lines, none of them a `help` read with
MORE prompts on, and returns the first data line, translated, leaving the lines after it. -/
theorem dumb_read_line_loop_first_data (P : Platform) (data : Line) (later : List Line)
    (out : List Nat) (hdata : is_command_line (cstr (dumb_getline P data.raw)) = false)
    (hout : translate_stored P.zc (dumb_getline P data.raw) = some out) :
    ∀ (cmds : List Line) (st : Loop), st.timeout = 0 → st.help_left = none →
      (∀ ev ∈ cmds, is_command_line (cstr (dumb_getline P ev.raw)) = true) →
      prompts_off_at_help P st.g.do_more_prompts cmds = true →
      ∃ g2 cont2, dumb_read_line_loop P st (cmds ++ data :: later) =
          .done ({ timed_out := false, s := cstr out, g := g2,
                   continued_line_chars := cont2 }, later) ∧
        g2.time_ahead = st.g.time_ahead := by
  intro cmds
  induction cmds with
  | nil =>
    intro st ht hh _ _
    refine ⟨st.g, st.continued_line_chars, ?_, rfl⟩
    rw [List.nil_append]
    unfold dumb_read_line_loop dumb_read_line_step
    simp only [hh, hdata, hout, Bool.not_false, if_true, ht, ne_eq, not_true_eq_false,
      false_and, if_false]
  | cons ev cmds ih =>
    intro st ht hh hcmds hpace
    have hev := hcmds ev (List.mem_cons_self _ _)
    unfold prompts_off_at_help at hpace
    simp only [Bool.and_eq_true] at hpace
    obtain ⟨st2, hstep, ht2, hh2, hp2, hta⟩ :=
      dumb_read_line_command_untimed P st (cstr (dumb_getline P ev.raw)) ev.now ht hh hpace.1
    have hs : dumb_read_line_step P st ev = .next st2 := by
      unfold dumb_read_line_step
      simp only [hh, hev, Bool.not_true, Bool.false_eq_true, if_false]
      exact hstep
    obtain ⟨g2, cont2, hrun, hg2⟩ :=
      ih st2 ht2 hh2 (fun e he => hcmds e (List.mem_cons_of_mem _ he))
        (by rw [hp2]; exact hpace.2)
    refine ⟨g2, cont2, ?_, by rw [hg2, hta]⟩
    rw [List.cons_append]
    unfold dumb_read_line_loop
    rw [hs]
    exact hrun

/-- C18 (amended). `dumb_read_line` returns the first line that is not a command: for an
untimed read (timeout 0) with MORE prompts off at the call, and every input stream that starts
with command lines, read with MORE prompts off whenever one of them is the command `help`
(commands `mp` may switch them in between), followed by a line that is not a command, the call
returns not timed out, its buffer holds the translation of that line, the command lines before
it are consumed without a return, the lines after it are left on the stream, and `time_ahead`
is 0. From the initial state the input `hello` returns at once with `hello` and RETURN and the
bank 0. -/
theorem dumb_read_line_first_data_line (P : Platform) (g : Session) (s0 : CStr)
    (type : input_type) (cont : Option (List Nat)) (now : Int) (cmds : List Line) (data : Line)
    (later : List Line) (hstart : g.do_more_prompts = false)
    (hcmds : ∀ ev ∈ cmds, is_command_line (cstr (dumb_getline P ev.raw)) = true)
    (hpace : prompts_off_at_help P false cmds = true)
    (hdata : is_command_line (cstr (dumb_getline P data.raw)) = false) :
    (∃ out g2 cont2, translate_stored P.zc (dumb_getline P data.raw) = some out ∧
      dumb_read_line P g s0 0 type cont now (cmds ++ data :: later) =
        .done ({ timed_out := false, s := cstr out, g := g2,
                 continued_line_chars := cont2 }, later) ∧
      g2.time_ahead = 0)
    ∧ dumb_read_line unix_platform initial_session [] 0 input_type.INPUT_LINE none 0
        [{ raw := bytes "hello", now := 0 }]
      = .done ({ timed_out := false, s := bytes "hello" ++ [0x0d], g := initial_session,
                 continued_line_chars := none }, []) := by
  refine ⟨?_, by decide⟩
  obtain ⟨out, hout⟩ := translate_stored_dumb_getline P data.raw
  unfold dumb_read_line
  simp only [ne_eq, not_true_eq_false, false_and, if_false]
  obtain ⟨g2, cont2, hrun, hg2⟩ :=
    dumb_read_line_loop_first_data P data later out hdata hout cmds
      { g := { g with time_ahead := 0 }, timeout := 0, start_time := 0, type := type,
        continued_line_chars := cont, help_left := none } rfl rfl hcmds
      (by rw [← hstart] at hpace; exact hpace)
  exact ⟨out, g2, cont2, hout, hrun, hg2⟩

set_option maxRecDepth 100000 in
/-- Witness for C18 (amended): after the commands `\sf2`, `\mp1`, `\mp0` and `\help` the line
`look` is returned and the line `north` is left on the stream; MORE prompts are off again when
`\help` is read. A line may hold a NUL: the line made of `a`, a backslash, a NUL and `b` is
returned as `a`, `b` and RETURN. -/
theorem dumb_read_line_first_data_line_witness :
    (∃ out g2 cont2,
      translate_stored unix_platform.zc (dumb_getline unix_platform (bytes "look")) = some out ∧
      dumb_read_line unix_platform initial_session [] 0 input_type.INPUT_LINE none 0
        ([{ raw := bytes "\\sf2", now := 0 }, { raw := bytes "\\mp1", now := 0 },
          { raw := bytes "\\mp0", now := 0 }, { raw := bytes "\\help", now := 0 }] ++
          { raw := bytes "look", now := 0 } :: [{ raw := bytes "north", now := 0 }]) =
        .done ({ timed_out := false, s := cstr out, g := g2,
                 continued_line_chars := cont2 }, [{ raw := bytes "north", now := 0 }]) ∧
      g2.time_ahead = 0)
    ∧ translate_stored unix_platform.zc (dumb_getline unix_platform (bytes "look"))
        = some (bytes "look" ++ [0x0d])
    ∧ dumb_read_line unix_platform initial_session [] 0 input_type.INPUT_LINE none 0
        [{ raw := [97, 92, 0, 98], now := 0 }]
      = .done ({ timed_out := false, s := [97, 98, 0x0d], g := initial_session,
                 continued_line_chars := none }, []) :=
  ⟨(dumb_read_line_first_data_line unix_platform initial_session [] input_type.INPUT_LINE none 0
      [{ raw := bytes "\\sf2", now := 0 }, { raw := bytes "\\mp1", now := 0 },
       { raw := bytes "\\mp0", now := 0 }, { raw := bytes "\\help", now := 0 }]
      { raw := bytes "look", now := 0 } [{ raw := bytes "north", now := 0 }]
      rfl (by decide) (by decide) (by decide)).1,
   by decide, by decide⟩

/-- C18 as stated fails when a command switches MORE prompts on. From the initial state, with
MORE prompts off and timeout 0, the stream `\mp1`, `\help`, `hello`, `world` has `hello` as
first line that is not a command; but `\mp1` switches the prompts on, the paginated help of
`\help` takes `hello` as the answer to its prompt, and the call returns `world`. -/
theorem dumb_read_line_help_takes_line :
    is_command_line (cstr (dumb_getline unix_platform (bytes "\\mp1"))) = true
    ∧ is_command_line (cstr (dumb_getline unix_platform (bytes "\\help"))) = true
    ∧ is_command_line (cstr (dumb_getline unix_platform (bytes "hello"))) = false
    ∧ dumb_read_line unix_platform initial_session [] 0 input_type.INPUT_LINE none 0
        [{ raw := bytes "\\mp1", now := 0 }, { raw := bytes "\\help", now := 0 },
         { raw := bytes "hello", now := 0 }, { raw := bytes "world", now := 0 }]
      = .done ({ timed_out := false, s := bytes "world" ++ [0x0d],
                 g := { initial_session with do_more_prompts := true },
                 continued_line_chars := none }, []) := by
  refine ⟨by decide, by decide, by decide, by decide⟩

/-- Masking with `2^n - 1` keeps the low `n` bits. -/
theorem and_mask_eq_mod (x : Nat) :
    x &&& 0x1f = x % 32 ∧ x &&& 0xf = x % 16 ∧ x &&& 0x3f = x % 64 :=
  ⟨Nat.and_pow_two_sub_one_eq_mod x 5, Nat.and_pow_two_sub_one_eq_mod x 4,
   Nat.and_pow_two_sub_one_eq_mod x 6⟩

/-- Shifting by 6 and or-ing 6 bits in puts the 6 bits after the others. -/
theorem shift_or_eq (a b : Nat) (hb : b < 64) : (a <<< 6) ||| b = a * 64 + b := by
  rw [Nat.shiftLeft_eq, Nat.mul_comm a (2 ^ 6)]
  exact (Nat.mul_add_lt_is_or (i := 6) hb a).symm

set_option maxRecDepth 100000 in
/-- The three patterns for the start of a sequence exclude one another, and a byte with the
top bit clear is below 2^7. -/
theorem lead_patterns_exclusive :
    ∀ b, b < 256 →
      (b &&& 0x80 = 0 → b < 2 ^ 7)
      ∧ (b &&& 0xe0 = 0xc0 → ¬ (b &&& 0x80 = 0))
      ∧ (b &&& 0xf0 = 0xe0 → ¬ (b &&& 0x80 = 0))
      ∧ (b &&& 0xf0 = 0xe0 → ¬ (b &&& 0xe0 = 0xc0)) := by
  decide

/-- C19. On a well-formed sequence `utf8_to_zchar` gives the payload bits of the sequence, put
one after the other, and the offset after the sequence: for a byte `0xxxxxxx` the byte itself
(7 bits) and `idx + 1`; for `110xxxxx 10xxxxxx` the 5 and 6 payload bits (11 bits) and
`idx + 2`; for `1110xxxx 10xxxxxx 10xxxxxx` the 4, 6 and 6 payload bits (16 bits) and
`idx + 3`. The value is below 2^16 in each case, so the 16 bits of a `zchar` hold it. -/
theorem utf8_to_zchar_well_formed (inp : CStr) (idx : Nat) (hbyte : byte_at inp idx < 256) :
    (byte_at inp idx &&& 0x80 = 0 →
      utf8_to_zchar inp idx = (byte_at inp idx, idx + 1) ∧ byte_at inp idx < 2 ^ 7)
    ∧ (byte_at inp idx &&& 0xe0 = 0xc0 → byte_at inp (idx + 1) &&& 0xc0 = 0x80 →
      utf8_to_zchar inp idx =
          (byte_at inp idx % 32 * 64 + byte_at inp (idx + 1) % 64, idx + 2) ∧
        byte_at inp idx % 32 * 64 + byte_at inp (idx + 1) % 64 < 2 ^ 11)
    ∧ (byte_at inp idx &&& 0xf0 = 0xe0 → byte_at inp (idx + 1) &&& 0xc0 = 0x80 →
        byte_at inp (idx + 2) &&& 0xc0 = 0x80 →
      utf8_to_zchar inp idx =
          ((byte_at inp idx % 16 * 64 + byte_at inp (idx + 1) % 64) * 64 +
            byte_at inp (idx + 2) % 64, idx + 3) ∧
        (byte_at inp idx % 16 * 64 + byte_at inp (idx + 1) % 64) * 64 +
          byte_at inp (idx + 2) % 64 < 2 ^ 16) := by
  have hpat := lead_patterns_exclusive (byte_at inp idx) hbyte
  have m0 := and_mask_eq_mod (byte_at inp idx)
  have m1 := and_mask_eq_mod (byte_at inp (idx + 1))
  have m2 := and_mask_eq_mod (byte_at inp (idx + 2))
  have r32 : byte_at inp idx % 32 < 32 := Nat.mod_lt _ (by decide)
  have r16 : byte_at inp idx % 16 < 16 := Nat.mod_lt _ (by decide)
  have r1 : byte_at inp (idx + 1) % 64 < 64 := Nat.mod_lt _ (by decide)
  have r2 : byte_at inp (idx + 2) % 64 < 64 := Nat.mod_lt _ (by decide)
  refine ⟨?_, ?_, ?_⟩
  · intro h1
    have h7 : byte_at inp idx < 2 ^ 7 := (hpat.1 h1)
    refine ⟨?_, h7⟩
    unfold utf8_to_zchar
    rw [if_pos h1]
    simp only [to_zchar]
    rw [Nat.mod_eq_of_lt (by omega)]
  · intro h2 hc1
    have hlt : byte_at inp idx % 32 * 64 + byte_at inp (idx + 1) % 64 < 2 ^ 11 := by omega
    refine ⟨?_, hlt⟩
    unfold utf8_to_zchar
    rw [if_neg (hpat.2.1 h2), if_pos h2]
    simp only [to_zchar, ne_eq, hc1, not_true_eq_false, if_false]
    rw [m0.1, m1.2.2, Nat.mod_eq_of_lt (a := byte_at inp idx % 32) (by omega),
      shift_or_eq _ _ r1, Nat.mod_eq_of_lt (by omega)]
  · intro h3 hc1 hc2
    have hlt : (byte_at inp idx % 16 * 64 + byte_at inp (idx + 1) % 64) * 64 +
        byte_at inp (idx + 2) % 64 < 2 ^ 16 := by omega
    refine ⟨?_, hlt⟩
    unfold utf8_to_zchar
    rw [if_neg (hpat.2.2.1 h3), if_neg (hpat.2.2.2 h3), if_pos h3]
    simp only [to_zchar, ne_eq, hc1, hc2, not_true_eq_false, if_false]
    rw [m0.2.1, m1.2.2, m2.2.2, Nat.mod_eq_of_lt (a := byte_at inp idx % 16) (by omega),
      shift_or_eq _ _ r1,
      Nat.mod_eq_of_lt (a := byte_at inp idx % 16 * 64 + byte_at inp (idx + 1) % 64) (by omega),
      shift_or_eq _ _ r2, Nat.mod_eq_of_lt (by omega)]

/-- Witness for C19: the three bytes `e2 82 ac` decode to 0x20ac and the offset moves by 3;
the two bytes `c3 a9` decode to 0xe9; the byte `41` decodes to itself. -/
theorem utf8_to_zchar_well_formed_witness :
    (utf8_to_zchar [0xe2, 0x82, 0xac] 0 = (0x20ac, 3) ∧ 0x20ac < 2 ^ 16)
    ∧ (utf8_to_zchar [0x41, 0xc3, 0xa9] 1 = (0xe9, 3) ∧ 0xe9 < 2 ^ 11)
    ∧ (utf8_to_zchar [0x41, 0xc3, 0xa9] 0 = (0x41, 1) ∧ 0x41 < 2 ^ 7) :=
  ⟨(utf8_to_zchar_well_formed [0xe2, 0x82, 0xac] 0 (by decide)).2.2 (by decide) (by decide)
      (by decide),
   (utf8_to_zchar_well_formed [0x41, 0xc3, 0xa9] 1 (by decide)).2.1 (by decide) (by decide),
   (utf8_to_zchar_well_formed [0x41, 0xc3, 0xa9] 0 (by decide)).1 (by decide)⟩


/-- The translator reads a line that ends with a newline to its end, and the last code it
writes is RETURN. -/
theorem translate_special_chars_line (zc : ZCodes) :
    ∀ (n : Nat) (body : CStr), body.length ≤ n →
      ∃ out, translate_special_chars zc (body ++ [10]) = some out ∧
        out.getLast? = some (to_char zc.ZC_RETURN) := by
  intro n
  induction n with
  | zero =>
    intro body hlen
    have : body = [] := List.length_eq_zero.mp (by omega)
    subst this
    exact ⟨[to_char zc.ZC_RETURN], rfl, rfl⟩
  | succ n ih =>
    intro body hlen
    match body, hlen with
    | [], _ => exact ⟨[to_char zc.ZC_RETURN], rfl, rfl⟩
    | c :: rest, hlen =>
      by_cases h92 : c = 92
      · subst h92
        match rest, hlen with
        | [], _ => exact ⟨[to_char zc.ZC_RETURN], rfl, rfl⟩
        | e :: rest2, hlen =>
          obtain ⟨out, hout, hlast⟩ := ih rest2 (by simp at hlen; omega)
          refine ⟨(escape_code zc e).toList ++ out, ?_, ?_⟩
          · rw [List.cons_append, List.cons_append, translate_special_chars_escape, hout]
            rfl
          · rw [List.getLast?_append, hlast]
            rfl
      · obtain ⟨out, hout, hlast⟩ := ih rest (by simpa using hlen)
        obtain ⟨pre, hpre⟩ := List.getLast?_eq_some_iff.mp hlast
        by_cases h10 : c = 10
        · subst h10
          refine ⟨to_char zc.ZC_RETURN :: out, ?_, ?_⟩
          · rw [List.cons_append, translate_special_chars_newline, hout]
            rfl
          · rw [hpre, ← List.cons_append, List.getLast?_concat]
        · refine ⟨c :: out, ?_, ?_⟩
          · rw [List.cons_append, translate_special_chars_plain zc c _ h10 h92, hout]
            rfl
          · rw [hpre, ← List.cons_append, List.getLast?_concat]

/-- When no escape stands for the code 0, the translation of a string without NUL is without
NUL. -/
theorem translate_special_chars_ne_zero (zc : ZCodes)
    (hcodes : ∀ e ∈ recognised_escapes, escape_code zc e ≠ some 0) :
    ∀ (n : Nat) (s : CStr) (out : List Nat), s.length ≤ n → (∀ b ∈ s, b ≠ 0) →
      translate_special_chars zc s = some out → ∀ c ∈ out, c ≠ 0 := by
  have hesc : ∀ e c, escape_code zc e = some c → c ≠ 0 := by
    intro e c h hc
    subst hc
    by_cases he : e ∈ recognised_escapes
    · exact hcodes e he h
    · rw [(escape_code_eq_none zc e).mpr he] at h
      exact absurd h (by simp)
  have hret : to_char zc.ZC_RETURN ≠ 0 := hesc 10 _ rfl
  intro n
  induction n with
  | zero =>
    intro s out hlen _ h
    have : s = [] := List.length_eq_zero.mp (by omega)
    subst this
    simp only [translate_special_chars, Option.some.injEq] at h
    subst h
    simp
  | succ n ih =>
    intro s out hlen h0 h
    match s, hlen, h0, h with
    | [], _, _, h =>
      simp only [translate_special_chars, Option.some.injEq] at h
      subst h
      simp
    | c :: rest, hlen, h0, h =>
      have hrest : ∀ b ∈ rest, b ≠ 0 := fun b hb => h0 b (List.mem_cons_of_mem _ hb)
      by_cases h92 : c = 92
      · subst h92
        match rest, hlen, hrest, h with
        | [], _, _, h => simp [translate_special_chars] at h
        | e :: rest2, hlen, hrest, h =>
          rw [translate_special_chars_escape] at h
          cases ht : translate_special_chars zc rest2 with
          | none => rw [ht] at h; exact absurd h (by simp)
          | some out2 =>
            rw [ht] at h
            simp only [Option.map_some', Option.some.injEq] at h
            subst h
            intro x hx
            rcases List.mem_append.mp hx with hx | hx
            · cases he : escape_code zc e with
              | none => rw [he] at hx; simp at hx
              | some v =>
                rw [he] at hx
                simp only [Option.toList, List.mem_singleton] at hx
                rw [hx]
                exact hesc e v he
            · exact ih rest2 out2 (by simp at hlen; omega)
                (fun b hb => hrest b (List.mem_cons_of_mem _ hb)) ht x hx
      · cases ht : translate_special_chars zc rest with
        | none =>
          by_cases h10 : c = 10
          · subst h10
            rw [translate_special_chars_newline, ht] at h
            exact absurd h (by simp)
          · rw [translate_special_chars_plain zc c _ h10 h92, ht] at h
            exact absurd h (by simp)
        | some out2 =>
          have ih2 := ih rest out2 (by simpa using hlen) hrest ht
          by_cases h10 : c = 10
          · subst h10
            rw [translate_special_chars_newline, ht] at h
            simp only [Option.map_some', Option.some.injEq] at h
            subst h
            intro x hx
            rcases List.mem_cons.mp hx with hx | hx
            · rw [hx]; exact hret
            · exact ih2 x hx
          · rw [translate_special_chars_plain zc c _ h10 h92, ht] at h
            simp only [Option.map_some', Option.some.injEq] at h
            subst h
            intro x hx
            rcases List.mem_cons.mp hx with hx | hx
            · rw [hx]; exact h0 c (List.mem_cons_self _ _)
            · exact ih2 x hx

/-- In a buffer whose last byte is accepted by `is_terminator`, the scan for the terminator
stops inside the string. -/
theorem find_terminator_inside (P : Platform) (B : Build) (last : Nat)
    (hlast : P.is_terminator (char_to_zchar B last) = true) :
    ∀ (buf : CStr) (i : Nat), buf.getLast? = some last →
      ∃ p, find_terminator P B buf i = some p ∧ i ≤ p ∧ p < i + buf.length := by
  intro buf
  induction buf with
  | nil => intro i h; simp at h
  | cons b rest ih =>
    intro i h
    unfold find_terminator
    by_cases hb : P.is_terminator (char_to_zchar B b) = true
    · rw [if_pos hb]
      exact ⟨i, rfl, le_refl _, by simp⟩
    · rw [if_neg hb]
      match rest, h with
      | [], h =>
        simp only [List.getLast?_singleton, Option.some.injEq] at h
        rw [h] at hb
        exact absurd hlast hb
      | c :: rest2, h =>
        rw [List.getLast?_cons_cons] at h
        obtain ⟨p, hp, h1, h2⟩ := ih (i + 1) h
        exact ⟨p, hp, by omega, by simp only [List.length_cons] at h2 ⊢; omega⟩

/-- A line without NUL is left in the buffer with its newline at the end, cut if it is too
long, and without NUL. -/
theorem dumb_getline_shape (P : Platform) (raw : List Nat) (h0 : ∀ b ∈ raw, b ≠ 0) :
    dumb_getline P raw = raw.take (P.INPUT_BUFFER_SIZE - 2) ++ [10] ∧
      ∀ b ∈ dumb_getline P raw, b ≠ 0 := by
  have hnz : ∀ b ∈ raw.take (P.INPUT_BUFFER_SIZE - 2) ++ [10], b ≠ 0 := by
    intro b hb
    rcases List.mem_append.mp hb with h | h
    · exact h0 b (List.mem_of_mem_take h)
    · simp at h; omega
  have heq : dumb_getline P raw = raw.take (P.INPUT_BUFFER_SIZE - 2) ++ [10] := rfl
  exact ⟨heq, by rw [heq]; exact hnz⟩

/-- One line without NUL, read when no escape stands for the code 0: the translator stays
inside the line, and if the read returns, the buffer is empty after a timeout or ends with
RETURN. -/
theorem dumb_read_line_step_buffer (P : Platform) (st : Loop) (ev : Line)
    (hcodes : ∀ e ∈ recognised_escapes, escape_code P.zc e ≠ some 0)
    (h0 : ∀ b ∈ ev.raw, b ≠ 0) :
    dumb_read_line_step P st ev ≠ .undefined ∧
      ∀ r, dumb_read_line_step P st ev = .ret r →
        (r.timed_out = true ∧ r.s = []) ∨ r.s.getLast? = some (to_char P.zc.ZC_RETURN) := by
  obtain ⟨hshape, hnz⟩ := dumb_getline_shape P ev.raw h0
  obtain ⟨out, hout, hlast⟩ :=
    translate_special_chars_line P.zc _ (ev.raw.take (P.INPUT_BUFFER_SIZE - 2)) (le_refl _)
  rw [← hshape] at hout
  have hcstr : cstr out = out :=
    cstr_eq_self out
      (translate_special_chars_ne_zero P.zc hcodes _ _ out (le_refl _) hnz hout)
  rw [← translate_stored_eq P.zc _ _ (le_refl _) hnz] at hout
  unfold dumb_read_line_step
  simp only
  cases hl : st.help_left with
  | some left =>
    simp only
    split <;> exact ⟨by simp, fun r hr => nomatch hr⟩
  | none =>
    simp only
    by_cases hc : is_command_line (cstr (dumb_getline P ev.raw)) = true
    · simp only [hc, Bool.not_true, Bool.false_eq_true, if_false]
      rcases dumb_read_line_command_no_data P st (cstr (dumb_getline P ev.raw)) ev.now with
        ⟨st2, h2⟩ | ⟨r2, h2, ht, hs⟩
      · rw [h2]
        exact ⟨by simp, fun r hr => nomatch hr⟩
      · rw [h2]
        refine ⟨by simp, fun r hr => ?_⟩
        cases hr
        exact Or.inl ⟨ht, hs⟩
    · simp only [Bool.not_eq_true] at hc
      simp only [hc, Bool.not_false, if_true, hout, hcstr]
      split
      · refine ⟨by simp, fun r hr => ?_⟩
        cases hr
        exact Or.inr hlast
      · refine ⟨by simp, fun r hr => ?_⟩
        cases hr
        exact Or.inr hlast

/-- The loop of `dumb_read_line` over lines without NUL: the same for the whole loop. -/
theorem dumb_read_line_loop_buffer (P : Platform)
    (hcodes : ∀ e ∈ recognised_escapes, escape_code P.zc e ≠ some 0) :
    ∀ (input : List Line) (st : Loop), (∀ ev ∈ input, ∀ b ∈ ev.raw, b ≠ 0) →
      dumb_read_line_loop P st input ≠ .undefined ∧
        ∀ r, dumb_read_line_loop P st input = .done r →
          (r.1.timed_out = true ∧ r.1.s = []) ∨
            r.1.s.getLast? = some (to_char P.zc.ZC_RETURN) := by
  intro input
  induction input with
  | nil =>
    intro st _
    exact ⟨by simp [dumb_read_line_loop], fun r hr => by simp [dumb_read_line_loop] at hr⟩
  | cons ev rest ih =>
    intro st h0
    obtain ⟨hne, hret⟩ :=
      dumb_read_line_step_buffer P st ev hcodes (h0 ev (List.mem_cons_self _ _))
    unfold dumb_read_line_loop
    cases hs : dumb_read_line_step P st ev with
    | ret r2 =>
      simp only
      refine ⟨by simp, fun r hr => ?_⟩
      cases hr
      exact hret r2 hs
    | next st2 =>
      simp only
      exact ih st2 (fun e he => h0 e (List.mem_cons_of_mem _ he))
    | undefined => exact absurd hs hne

/-- The line part of `os_read_line` on a buffer that ends with RETURN, when `is_terminator`
accepts RETURN: the terminator is found inside the buffer, and what is kept for the next call
is empty or ends with RETURN. -/
theorem split_line_buffer (P : Platform) (B : Build) (m : Input) (buf : List Nat)
    (rest : List Line)
    (hret : P.is_terminator (char_to_zchar B (to_char P.zc.ZC_RETURN)) = true)
    (hlast : m.read_line_buffer.getLast? = some (to_char P.zc.ZC_RETURN)) :
    ∃ r, split_line P B m buf rest = .done r ∧
      (r.m.read_line_buffer = [] ∨
        r.m.read_line_buffer.getLast? = some (to_char P.zc.ZC_RETURN)) := by
  obtain ⟨p, hp, _, hlt⟩ := find_terminator_inside P B _ hret m.read_line_buffer 0 hlast
  unfold split_line
  rw [hp]
  simp only
  rw [if_neg (by omega)]
  refine ⟨_, rfl, ?_⟩
  simp only
  split
  · exact Or.inl rfl
  · by_cases hk : m.read_line_buffer.length ≤ p + 1
    · exact Or.inl (List.drop_eq_nil_of_le hk)
    · right
      rw [List.getLast?_drop, if_neg hk]
      exact hlast

/-- A call of `dumb_read_line` over lines without NUL stays inside every line; when it
returns, it has timed out with the buffer as it was or empty, or the buffer ends with
RETURN. -/
theorem dumb_read_line_buffer (P : Platform) (g : Session) (s0 : CStr) (timeout : Int)
    (type : input_type) (cont : Option (List Nat)) (now : Int) (input : List Line)
    (hcodes : ∀ e ∈ recognised_escapes, escape_code P.zc e ≠ some 0)
    (h0 : ∀ ev ∈ input, ∀ b ∈ ev.raw, b ≠ 0) :
    dumb_read_line P g s0 timeout type cont now input ≠ .undefined ∧
      ∀ r, dumb_read_line P g s0 timeout type cont now input = .done r →
        (r.1.timed_out = true ∧ (r.1.s = s0 ∨ r.1.s = [])) ∨
          r.1.s.getLast? = some (to_char P.zc.ZC_RETURN) := by
  unfold dumb_read_line
  split
  · refine ⟨by simp, fun r hr => ?_⟩
    cases hr
    exact Or.inl ⟨rfl, Or.inl rfl⟩
  · obtain ⟨hne, hdone⟩ := dumb_read_line_loop_buffer P hcodes input
      { g := { g with time_ahead := 0 },
        timeout := if timeout ≠ 0 then timeout - g.time_ahead else timeout,
        start_time := if timeout ≠ 0 then now else 0,
        type := type, continued_line_chars := cont, help_left := none } h0
    refine ⟨hne, fun r hr => ?_⟩
    rcases hdone r hr with ⟨h1, h2⟩ | h
    · exact Or.inl ⟨h1, Or.inr h2⟩
    · exact Or.inr h

/-- A call of `os_read_line` over lines without NUL, from a `read_line_buffer` that is empty
or ends with RETURN: the call stays inside its buffers, and leaves a `read_line_buffer` that
is empty or ends with RETURN. -/
theorem os_read_line_buffer (P : Platform) (B : Build) (m : Input) (buf : List Nat)
    (timeout : Int) (continued : Bool) (now : Int) (input : List Line)
    (hret : P.is_terminator (char_to_zchar B (to_char P.zc.ZC_RETURN)) = true)
    (hcodes : ∀ e ∈ recognised_escapes, escape_code P.zc e ≠ some 0)
    (hm : m.read_line_buffer = [] ∨
      m.read_line_buffer.getLast? = some (to_char P.zc.ZC_RETURN))
    (h0 : ∀ ev ∈ input, ∀ b ∈ ev.raw, b ≠ 0) :
    os_read_line P B m buf timeout continued now input ≠ .undefined ∧
      ∀ r, os_read_line P B m buf timeout continued now input = .done r →
        r.m.read_line_buffer = [] ∨
          r.m.read_line_buffer.getLast? = some (to_char P.zc.ZC_RETURN) := by
  have hpend : ∀ pending : CStr,
      pending = (if (m.timed_out_last_time && !continued) = true then ([] : CStr)
        else m.read_line_buffer) →
      pending = [] ∨ pending.getLast? = some (to_char P.zc.ZC_RETURN) := by
    intro pending hp
    rw [hp]
    split
    · exact Or.inl rfl
    · exact hm
  unfold os_read_line
  simp only
  generalize hp : (if (m.timed_out_last_time && !continued) = true then ([] : CStr)
    else m.read_line_buffer) = pending
  have hok := hpend pending hp.symm
  by_cases hpe : pending = []
  · rw [if_pos hpe]
    obtain ⟨hne, hdone⟩ := dumb_read_line_buffer P m.g pending timeout
      (if buf ≠ [] then input_type.INPUT_LINE_CONTINUED else input_type.INPUT_LINE)
      (some buf) now input hcodes h0
    cases hd : dumb_read_line P m.g pending timeout
        (if buf ≠ [] then input_type.INPUT_LINE_CONTINUED else input_type.INPUT_LINE)
        (some buf) now input with
    | undefined => exact absurd hd hne
    | eof => exact ⟨by simp, fun r hr => nomatch hr⟩
    | done x =>
      simp only
      have hx := hdone x hd
      by_cases hto : x.1.timed_out = true
      · rw [if_pos hto]
        refine ⟨by simp, fun r hr => ?_⟩
        cases hr
        simp only
        rcases hx with ⟨_, h | h⟩ | h
        · left; rw [h, hpe]
        · exact Or.inl h
        · exact Or.inr h
      · rw [if_neg hto]
        have hlast : x.1.s.getLast? = some (to_char P.zc.ZC_RETURN) := by
          rcases hx with ⟨h, _⟩ | h
          · exact absurd h hto
          · exact h
        obtain ⟨r2, hr2, hok2⟩ := split_line_buffer P B
          { g := x.1.g, read_key_buffer := [], read_line_buffer := x.1.s,
            timed_out_last_time := m.timed_out_last_time }
          (x.1.continued_line_chars.getD buf) x.2 hret hlast
        rw [hr2]
        refine ⟨by simp, fun r hr => ?_⟩
        cases hr
        exact hok2
  · rw [if_neg hpe]
    have hlast : pending.getLast? = some (to_char P.zc.ZC_RETURN) := by
      rcases hok with h | h
      · exact absurd h hpe
      · exact h
    split
    · refine ⟨by simp, fun r hr => ?_⟩
      cases hr
      exact Or.inr hlast
    · obtain ⟨r2, hr2, hok2⟩ := split_line_buffer P B
        { g := { m.g with time_ahead := (check_timeout timeout m.g.time_ahead).1 },
          read_key_buffer := [], read_line_buffer := pending,
          timed_out_last_time := m.timed_out_last_time }
        buf input hret hlast
      rw [hr2]
      refine ⟨by simp, fun r hr => ?_⟩
      cases hr
      exact hok2

/-- C20. For every line that ends with a newline, `translate_special_chars` stops at the
terminating NUL of the line, and what it writes is not empty and has the RETURN code as last
element. Hence, when `is_terminator` accepts RETURN and no escape stands for the code 0: in
every buffer that ends with RETURN the scan of `os_read_line` finds a terminator inside the
string; and over input lines without NUL, every call of `os_read_line` from a
`read_line_buffer` that is empty or ends with RETURN stays inside its buffers and leaves
`read_line_buffer` empty or ending with RETURN, as every call of `os_read_key` does. -/
theorem line_buffer_has_terminator (P : Platform) (B : Build)
    (hret : P.is_terminator (char_to_zchar B (to_char P.zc.ZC_RETURN)) = true)
    (hcodes : ∀ e ∈ recognised_escapes, escape_code P.zc e ≠ some 0) :
    (∀ body : CStr, ∃ out, translate_special_chars P.zc (body ++ [10]) = some out ∧
      out ≠ [] ∧ out.getLast? = some (to_char P.zc.ZC_RETURN))
    ∧ (∀ buf : CStr, buf.getLast? = some (to_char P.zc.ZC_RETURN) →
        ∃ p, find_terminator P B buf 0 = some p ∧ p < buf.length)
    ∧ (∀ (m : Input) (buf : List Nat) (timeout : Int) (continued : Bool) (now : Int)
        (input : List Line),
        (m.read_line_buffer = [] ∨
          m.read_line_buffer.getLast? = some (to_char P.zc.ZC_RETURN)) →
        (∀ ev ∈ input, ∀ b ∈ ev.raw, b ≠ 0) →
        os_read_line P B m buf timeout continued now input ≠ .undefined ∧
          ∀ r, os_read_line P B m buf timeout continued now input = .done r →
            r.m.read_line_buffer = [] ∨
              r.m.read_line_buffer.getLast? = some (to_char P.zc.ZC_RETURN))
    ∧ (∀ (m : Input) (timeout now : Int) (input : List Line) (r : KeyRead),
        os_read_key P B m timeout now input = .done r → r.m.read_line_buffer = []) := by
  refine ⟨?_, ?_, ?_, os_read_key_clears_line_buffer P B⟩
  · intro body
    obtain ⟨out, hout, hlast⟩ := translate_special_chars_line P.zc _ body (le_refl _)
    refine ⟨out, hout, ?_, hlast⟩
    intro h
    rw [h] at hlast
    simp at hlast
  · intro buf hlast
    obtain ⟨p, hp, _, hlt⟩ := find_terminator_inside P B _ hret buf 0 hlast
    exact ⟨p, hp, by omega⟩
  · intro m buf timeout continued now input hm h0
    exact os_read_line_buffer P B m buf timeout continued now input hret hcodes hm h0

/-- Witness for C20, with the codes of Frotz and RETURN as terminator: the line `go\_x`
translates to `go`, RETURN, `x`, RETURN, and the scan of `os_read_line` stops at index 2 of
these four codes. -/
theorem line_buffer_has_terminator_witness :
    (∃ out, translate_special_chars unix_platform.zc (bytes "go\\_x" ++ [10]) = some out ∧
      out ≠ [] ∧ out.getLast? = some (to_char unix_platform.zc.ZC_RETURN))
    ∧ (∃ p, find_terminator unix_platform utf8_build [103, 111, 13, 120, 13] 0 = some p ∧
        p < [103, 111, 13, 120, 13].length)
    ∧ translate_special_chars unix_platform.zc (bytes "go\\_x" ++ [10])
        = some [103, 111, 13, 120, 13]
    ∧ find_terminator unix_platform utf8_build [103, 111, 13, 120, 13] 0 = some 2 :=
  ⟨(line_buffer_has_terminator unix_platform utf8_build (by decide) (by decide)).1
      (bytes "go\\_x"),
   (line_buffer_has_terminator unix_platform utf8_build (by decide) (by decide)).2.1
      [103, 111, 13, 120, 13] (by decide),
   by decide, by decide⟩


/-- Rounding keeps the sign: a value that is not negative is rounded to one that is not
negative, an infinity included. -/
theorem round_binary_nonneg (prec : Nat) (emin : Int) (emax : Nat) (x : Speed)
    (h : 0 ≤ x.num) : 0 ≤ (round_binary prec emin emax x).num := by
  have hs : 0 ≤ x.num.sign := Int.sign_nonneg.mpr h
  unfold round_binary
  simp only
  split_ifs <;>
    first
      | exact hs
      | exact le_refl _
      | exact Int.mul_nonneg hs (Int.ofNat_nonneg _)

/-- The product of two values that are not negative is not negative, or is not a number. -/
theorem float_mul_nonneg (a b : Speed) (ha : 0 ≤ a.num) (hb : 0 ≤ b.num) :
    0 ≤ (float_mul a b).num := by
  unfold float_mul
  split
  · split
    · exact le_refl _
    · exact Int.mul_nonneg (Int.sign_nonneg.mpr ha) (Int.sign_nonneg.mpr hb)
  · exact round_binary_nonneg _ _ _ _ (Int.mul_nonneg ha hb)

/-- With a speed factor that is not negative and a clock that has not gone back, the simulated
elapsed time is not negative, provided that `int` can hold it. -/
theorem elapsed_time_nonneg (now start_time : Int) (speed : Speed) (hclock : start_time ≤ now)
    (hspeed : 0 ≤ speed.num)
    (hfit : float_fits_int (scaled_time now start_time speed) = true) :
    0 ≤ elapsed_time now start_time speed := by
  have hnum : 0 ≤ (scaled_time now start_time speed).num := by
    unfold scaled_time
    apply float_mul_nonneg _ _ _ hspeed
    apply round_binary_nonneg
    show 0 ≤ (now - start_time) * 10
    omega
  unfold elapsed_time float_to_int
  rw [if_pos hfit]
  exact Int.tdiv_nonneg hnum (Int.ofNat_nonneg _)

/-- The step of the loop for a line that begins with `\w`, during a timed read: with `arg` the
text between the `w` and the last character of the line, and `used` the number `atoi` reads in
`arg` or, when that is 0, the simulated elapsed time, the read returns timed out if `used` is
at least the remaining timeout, and goes on with the remaining timeout less `used` otherwise.
A line that is only `\w`, cut before its newline, changes nothing. -/
theorem dumb_read_line_step_w (P : Platform) (st : Loop) (ev : Line) (tail : CStr)
    (htop : st.help_left = none) (hR : 0 < st.timeout)
    (hline : cstr (dumb_getline P ev.raw) = 92 :: 119 :: tail) :
    dumb_read_line_step P st ev =
      if tail = [] then .next st
      else if (if atoi tail.dropLast = 0 then elapsed_time ev.now st.start_time st.g.speed
          else atoi tail.dropLast) ≥ st.timeout then
        .ret { timed_out := true, s := [],
               g := { st.g with
                      time_ahead :=
                        (if atoi tail.dropLast = 0 then
                            elapsed_time ev.now st.start_time st.g.speed
                          else atoi tail.dropLast) - st.timeout },
               continued_line_chars := st.continued_line_chars }
      else
        .next { st with
                timeout := st.timeout -
                  (if atoi tail.dropLast = 0 then elapsed_time ev.now st.start_time st.g.speed
                    else atoi tail.dropLast),
                start_time := ev.now } := by
  have hne : st.timeout ≠ 0 := by omega
  have hc : is_command_line (92 :: 119 :: tail) = true := by
    cases tail <;> simp [is_command_line, byte_at, islower]
  unfold dumb_read_line_step
  simp only [htop, hline, hc, Bool.not_true, Bool.false_eq_true, if_false]
  unfold dumb_read_line_command
  match tail with
  | [] =>
    simp only [List.drop_succ_cons, List.drop_zero, List.dropLast_single, if_true]
    have h1 : ¬ (([] : List Nat) = [116]) := by simp
    have h2 : ¬ (byte_at ([] : List Nat) 0 = 119) := by decide
    have h3 : ¬ (([] : List Nat) = [100]) := by simp
    have h4 : ¬ (([] : List Nat) = [104, 101, 108, 112]) := by simp
    have h5 : ¬ (([] : List Nat) = [115]) := by simp
    rw [if_neg h1, if_neg h2, if_neg h3, if_neg h4, if_neg h5]
    have h6 : dumb_handle_setting P st.g [] = st.g := by
      simp [dumb_handle_setting, strncmp_eq]
    rw [h6]
  | t :: ts =>
    have hcmd : ((92 :: 119 :: t :: ts).drop 1).dropLast = 119 :: (t :: ts).dropLast := by
      simp [List.dropLast]
    simp only [hcmd]
    have h1 : (119 :: (t :: ts).dropLast : List Nat) ≠ [116] := by simp
    have h2 : byte_at (119 :: (t :: ts).dropLast) 0 = 119 := rfl
    rw [if_neg h1, if_pos h2, if_pos hne, if_neg (List.cons_ne_nil _ _)]
    simp only [List.drop_succ_cons, List.drop_zero, htop]

/-- C21 (amended). Under the command `w` the simulated clock does not go back when the amount
used is not negative and no `int` overflows: for every remaining timeout `R > 0` and every
command line that begins with `\w`, if the `int` that `atoi` reads in its argument is not
negative, the speed factor is not negative, the clock has not gone back since the time
reference and, where the argument reads as 0 and the clock is used, `int` can hold the scaled
elapsed time, and if the read does not return, then the remaining timeout after the command is
at most `R`, and still positive. -/
theorem dumb_read_line_w_clock_forward (P : Platform) (st : Loop) (ev : Line) (tail : CStr)
    (st2 : Loop) (htop : st.help_left = none) (hR : 0 < st.timeout)
    (hline : cstr (dumb_getline P ev.raw) = 92 :: 119 :: tail)
    (harg : 0 ≤ atoi tail.dropLast) (hspeed : 0 ≤ st.g.speed.num)
    (hclock : st.start_time ≤ ev.now)
    (hfit : atoi tail.dropLast = 0 →
      float_fits_int (scaled_time ev.now st.start_time st.g.speed) = true)
    (hnext : dumb_read_line_step P st ev = .next st2) :
    st2.timeout ≤ st.timeout ∧ 0 < st2.timeout := by
  rw [dumb_read_line_step_w P st ev tail htop hR hline] at hnext
  by_cases ht : tail = []
  · rw [if_pos ht] at hnext
    cases hnext
    exact ⟨le_refl _, hR⟩
  · rw [if_neg ht] at hnext
    generalize hu : (if atoi tail.dropLast = 0 then
      elapsed_time ev.now st.start_time st.g.speed else atoi tail.dropLast) = used at hnext
    have hused : 0 ≤ used := by
      rw [← hu]
      split
      · rename_i hzero
        exact elapsed_time_nonneg ev.now st.start_time st.g.speed hclock hspeed (hfit hzero)
      · exact harg
    by_cases hge : used ≥ st.timeout
    · rw [if_pos hge] at hnext
      cases hnext
    · rw [if_neg hge] at hnext
      cases hnext
      simp only
      omega

set_option maxRecDepth 100000 in
/-- Witness for C21 (amended): with a remaining timeout of 50 the command `\w`, read two
seconds after the time reference at speed factor 1, uses 20 tenths and lets the read go on with
a remaining timeout of 30. -/
theorem dumb_read_line_w_clock_forward_witness :
    dumb_read_line_step unix_platform
        { g := initial_session, timeout := 50, start_time := 0, type := input_type.INPUT_LINE,
          continued_line_chars := none, help_left := none }
        { raw := bytes "\\w", now := 2 }
      = .next { g := initial_session, timeout := 30, start_time := 2,
                type := input_type.INPUT_LINE, continued_line_chars := none,
                help_left := none }
    ∧ ((30 : Int) ≤ 50 ∧ (0 : Int) < 30) :=
  ⟨by decide,
   dumb_read_line_w_clock_forward unix_platform
    { g := initial_session, timeout := 50, start_time := 0, type := input_type.INPUT_LINE,
      continued_line_chars := none, help_left := none }
    { raw := bytes "\\w", now := 2 } [10]
    { g := initial_session, timeout := 30, start_time := 2, type := input_type.INPUT_LINE,
      continued_line_chars := none, help_left := none }
    rfl (by decide) (by decide) (by decide) (by decide) (by decide) (fun _ => by decide)
    (by decide)⟩

set_option maxRecDepth 100000 in
/-- C21 as stated fails for a negative amount. With a remaining timeout of 10 the command
`\w-5` does not end the read and leaves a remaining timeout of 15. With the speed factor -1
(set by `\sf-1`), the command `\w` one second after the time reference uses -10 tenths and
leaves a remaining timeout of 20. -/
theorem dumb_read_line_w_clock_back :
    dumb_read_line_step unix_platform
        { g := initial_session, timeout := 10, start_time := 0, type := input_type.INPUT_LINE,
          continued_line_chars := none, help_left := none }
        { raw := bytes "\\w-5", now := 0 }
      = .next { g := initial_session, timeout := 15, start_time := 0,
                type := input_type.INPUT_LINE, continued_line_chars := none,
                help_left := none }
    ∧ to_float (atof_decimal (bytes "-1")) = { num := -1, den := 1 }
    ∧ dumb_read_line_step unix_platform
        { g := { initial_session with speed := { num := -1, den := 1 } }, timeout := 10,
          start_time := 0, type := input_type.INPUT_LINE, continued_line_chars := none,
          help_left := none }
        { raw := bytes "\\w", now := 1 }
      = .next { g := { initial_session with speed := { num := -1, den := 1 } }, timeout := 20,
                start_time := 1, type := input_type.INPUT_LINE,
                continued_line_chars := none, help_left := none } := by
  refine ⟨by decide, by decide, by decide⟩

end Dinput
